import Mathlib

/-!
Verification development for the quiz-poll bot in `src/main.py`.

The SQLite tables declared in `_ensure_schema` are embedded as lists of row
structures (rows kept in physical insertion order; SQLite AUTOINCREMENT ids
are modelled with explicit `next…Id` counters).  SQL queries with `ORDER BY`
are modelled with `List.insertionSort` on the ordering key; `fetchone` is
`List.find?`; `INSERT OR REPLACE` removes the conflicting row and appends.
Timestamps are integers (`datetime` values compare like their ISO strings).
The Telegram transport is modelled as pure outputs plus, for the publisher,
an oracle giving the outcome of each raw send attempt.
-/

namespace QuizBot

/-- Row of the quizzes table (`_ensure_schema`). -/
structure QuizRow where
  id : Nat
  title : String
  createdBy : Int
  createdAt : Int
  isArchived : Bool
deriving DecidableEq, Repr

/-- Row of the questions table. -/
structure QuestionRow where
  id : Nat
  quizId : Nat
  text : String
  createdAt : Int
  mediaBundleId : Option Nat
deriving DecidableEq, Repr

/-- Row of the options table. -/
structure OptionRow where
  questionId : Nat
  optionIndex : Nat
  text : String
  isCorrect : Bool
deriving DecidableEq, Repr

/-- Row of the question_attachments table. -/
structure AttachmentRow where
  questionId : Nat
  kind : String
  fileId : String
  position : Nat
deriving DecidableEq, Repr

/-- Row of the media_bundles table. -/
structure BundleRow where
  id : Nat
  quizId : Nat
  createdAt : Int
deriving DecidableEq, Repr

/-- Row of the media_bundle_attachments table. -/
structure BundleAttRow where
  bundleId : Nat
  kind : String
  fileId : String
  position : Nat
deriving DecidableEq, Repr

/-- Row of the sent_polls table.  `expiresAt` is a nullable TEXT column:
`none` is SQL NULL, `some none` a string `datetime.fromisoformat` rejects,
`some (some t)` a string parsing to time `t`. -/
structure SentPollRow where
  id : Nat
  chatId : Int
  quizId : Nat
  questionId : Nat
  pollId : String
  messageId : Option Nat
  expiresAt : Option (Option Int)
  isClosed : Bool
deriving DecidableEq, Repr

/-- Row of the sent_msgs table. -/
structure SentMsgRow where
  chatId : Int
  quizId : Nat
  messageId : Nat
  expiresAt : Option (Option Int)
deriving DecidableEq, Repr

/-- Row of the responses table.  The table carries
UNIQUE(chat_id, user_id, question_id); see `insertResponse`. -/
structure ResponseRow where
  chatId : Int
  userId : Int
  questionId : Nat
  optionIndex : Nat
  isCorrect : Bool
  answeredAt : Int
deriving DecidableEq, Repr

/-- Row of the participant_names table. -/
structure ParticipantNameRow where
  originChatId : Int
  userId : Int
  quizId : Nat
  name : String
deriving DecidableEq, Repr

/-- The whole SQLite database of the bot. -/
structure DB where
  quizzes : List QuizRow
  questions : List QuestionRow
  options : List OptionRow
  qAtts : List AttachmentRow
  bundles : List BundleRow
  bAtts : List BundleAttRow
  sentPolls : List SentPollRow
  sentMsgs : List SentMsgRow
  responses : List ResponseRow
  participantNames : List ParticipantNameRow
  nextQuizId : Nat
  nextQuestionId : Nat
  nextBundleId : Nat
  nextSentPollId : Nat
deriving DecidableEq, Repr

/-- The empty database right after `_ensure_schema` on a fresh file. -/
def DB.empty : DB :=
  ⟨[], [], [], [], [], [], [], [], [], [], 1, 1, 1, 1⟩

/-- Ordering relation used to model `ORDER BY id` on questions. -/
def leQId (a b : QuestionRow) : Prop := a.id ≤ b.id

/-- Ordering relation used to model `ORDER BY option_index`. -/
def leOptIdx (a b : OptionRow) : Prop := a.optionIndex ≤ b.optionIndex

/-- Ordering relation used to model `ORDER BY position` on question attachments. -/
def leAttPos (a b : AttachmentRow) : Prop := a.position ≤ b.position

/-- Ordering relation used to model `ORDER BY position` on bundle attachments. -/
def leBAttPos (a b : BundleAttRow) : Prop := a.position ≤ b.position

instance : DecidableRel leQId := fun a b => Nat.decLe a.id b.id

instance : DecidableRel leOptIdx := fun a b => Nat.decLe a.optionIndex b.optionIndex

instance : DecidableRel leAttPos := fun a b => Nat.decLe a.position b.position

instance : DecidableRel leBAttPos := fun a b => Nat.decLe a.position b.position

/-- Query `SELECT * FROM questions WHERE quiz_id=? ORDER BY id`. -/
def questions_for_quiz (db : DB) (quizId : Nat) : List QuestionRow :=
  (db.questions.filter (fun q => decide (q.quizId = quizId))).insertionSort leQId

/-- Helper `get_quiz_question_ids` (main.py:420-423):
`SELECT id FROM questions WHERE quiz_id=? ORDER BY id`. -/
def get_quiz_question_ids (db : DB) (quizId : Nat) : List Nat :=
  (questions_for_quiz db quizId).map (·.id)

/-- Helper `options_for_question` (main.py:425-428):
`SELECT … FROM options WHERE question_id=? ORDER BY option_index`. -/
def options_for_question (db : DB) (questionId : Nat) : List OptionRow :=
  (db.options.filter (fun o => decide (o.questionId = questionId))).insertionSort leOptIdx

/-- Helper `get_question_atts` (main.py:430-433). -/
def get_question_atts (db : DB) (questionId : Nat) : List AttachmentRow :=
  (db.qAtts.filter (fun a => decide (a.questionId = questionId))).insertionSort leAttPos

/-- Helper `get_bundle_atts` (main.py:435-438). -/
def get_bundle_atts (db : DB) (bundleId : Nat) : List BundleAttRow :=
  (db.bAtts.filter (fun a => decide (a.bundleId = bundleId))).insertionSort leBAttPos

/-! ### Answer ingestion (`handle_poll_answer`, main.py:1233-1293) -/

/-- An inbound `poll_answer` update: poll external id, participant and the
selected option indices (an empty list is a vote retraction). -/
structure PollAnswerEvent where
  userId : Int
  displayName : String
  pollId : String
  optionIds : List Nat
deriving DecidableEq, Repr

/-- Errors the ingestion path can raise (sqlite3 exceptions). -/
inductive IngestError where
  /-- sqlite3.IntegrityError from the UNIQUE constraint on responses. -/
  | constraintViolation
  /-- sqlite3.OperationalError: `question_id IN ()` with an empty id list is
  a SQL syntax error in SQLite. -/
  | sqlError
deriving DecidableEq, Repr

/-- Outbound messages produced by the ingestion path. -/
inductive OutMsg where
  /-- Best-effort celebratory sticker/animation (`_celebrate`). -/
  | celebrate (chatId : Int) (isCorrect : Bool)
  /-- The final-score message `🎉 النتيجة النهائية — name: total / outOf`. -/
  | finalScore (chatId : Int) (userId : Int) (name : String) (total : Nat) (outOf : Nat)
deriving DecidableEq, Repr

/-- Result of one ingestion: the database after all statements that committed,
the transport messages sent, and the uncaught exception if one was raised.
Each `with db() as conn` block in the source commits separately, so effects
before a raised exception persist. -/
structure IngestResult where
  db : DB
  out : List OutMsg
  err : Option IngestError
deriving DecidableEq, Repr

/-- The persistence-layer insert into responses.  The schema
(`_ensure_schema`, main.py:121-132) declares
`UNIQUE(chat_id, user_id, question_id)`, so the store itself rejects a
second row for the same triple with an IntegrityError, independently of any
application-level check. -/
def insertResponse (db : DB) (r : ResponseRow) : DB × Option IngestError :=
  if db.responses.any (fun r0 =>
      decide (r0.chatId = r.chatId) && decide (r0.userId = r.userId)
        && decide (r0.questionId = r.questionId)) then
    (db, some IngestError.constraintViolation)
  else
    ({ db with responses := db.responses ++ [r] }, none)

/-- Query `SELECT COUNT(DISTINCT question_id) FROM responses WHERE chat_id=?
AND user_id=? AND question_id IN (q_ids)` from the completion check. -/
def countDistinctAnswered (resp : List ResponseRow) (chatId userId : Int)
    (qIds : List Nat) : Nat :=
  (((resp.filter (fun r =>
      decide (r.chatId = chatId) && decide (r.userId = userId)
        && decide (r.questionId ∈ qIds))).map (·.questionId)).dedup).length

/-- Query `SELECT SUM(is_correct) FROM responses WHERE chat_id=? AND user_id=?
AND question_id IN (q_ids)` from the final-score computation. -/
def sumCorrect (resp : List ResponseRow) (chatId userId : Int)
    (qIds : List Nat) : Nat :=
  ((resp.filter (fun r =>
      decide (r.chatId = chatId) && decide (r.userId = userId)
        && decide (r.questionId ∈ qIds))).filter (fun r => r.isCorrect)).length

/-- Correctness resolution (main.py:1267-1270): compare the chosen index
with the stored option; an index with no stored option scores incorrect. -/
def resolveCorrect (db1 : DB) (questionId chosen : Nat) : Bool :=
  match db1.options.find? (fun o =>
    decide (o.questionId = questionId) && decide (o.optionIndex = chosen)) with
  | some o => o.isCorrect
  | none => false

/-- Response insert, celebration and completion check — the tail of
`handle_poll_answer` (main.py:1267-1293), reached only after the duplicate
check found no previous response.  `db1` is the state after the name
upsert.  The insert is NOT wrapped in try/except, so a constraint
violation propagates; the completion-check query raises when the quiz's
current question id list is empty (`question_id IN ()` is a SQLite syntax
error). -/
def finishInsert (db1 : DB) (chatId userId : Int) (name : String)
    (quizId questionId chosen : Nat) (now : Int) : IngestResult :=
  let isCorrect := resolveCorrect db1 questionId chosen
  match insertResponse db1 ⟨chatId, userId, questionId, chosen, isCorrect, now⟩ with
  | (db2, some e) => ⟨db2, [], some e⟩
  | (db2, none) =>
    let outs := [OutMsg.celebrate chatId isCorrect]
    let qIds := get_quiz_question_ids db2 quizId
    if qIds.isEmpty then
      ⟨db2, outs, some IngestError.sqlError⟩
    else
      let answeredCnt := countDistinctAnswered db2.responses chatId userId qIds
      if answeredCnt = qIds.length then
        let total := sumCorrect db2.responses chatId userId qIds
        ⟨db2, outs ++ [OutMsg.finalScore chatId userId name total qIds.length], none⟩
      else ⟨db2, outs, none⟩

/-- The participant-name upsert `INSERT OR REPLACE INTO participant_names`
(main.py:1255-1260): the conflicting row is deleted, the new row inserted. -/
def upsertName (db : DB) (chatId userId : Int) (quizId : Nat) (name : String) : DB :=
  { db with participantNames :=
      (db.participantNames.filter (fun p => !(decide (p.originChatId = chatId)
          && decide (p.userId = userId) && decide (p.quizId = quizId))))
        ++ [⟨chatId, userId, quizId, name⟩] }

/-- The expiry test of the handler (main.py:1246-1251): `expired` stays
false when expires_at is NULL or fails to parse (the bare except). -/
def pollExpired (row : SentPollRow) (now : Int) : Bool :=
  match row.expiresAt with
  | some (some t) => decide (t < now)
  | _ => false

/-- The poll-answer handler `handle_poll_answer` (main.py:1233-1293), with
`now` the current UTC time.  Mirrors the source control flow: empty option
list dropped; unknown poll dropped; expired or closed poll dropped; name
upserted; duplicate dropped; then `finishInsert`. -/
def handle_poll_answer (db : DB) (now : Int) (pa : PollAnswerEvent) : IngestResult :=
  match pa.optionIds.head? with
  | none => ⟨db, [], none⟩
  | some chosen =>
    match db.sentPolls.find? (fun sp => sp.pollId == pa.pollId) with
    | none => ⟨db, [], none⟩
    | some row =>
      if pollExpired row now || row.isClosed then ⟨db, [], none⟩
      else
        let db1 := upsertName db row.chatId pa.userId row.quizId pa.displayName
        if db1.responses.any (fun r =>
            decide (r.chatId = row.chatId) && decide (r.userId = pa.userId)
              && decide (r.questionId = row.questionId)) then
          ⟨db1, [], none⟩
        else
          finishInsert db1 row.chatId pa.userId pa.displayName row.quizId row.questionId
            chosen now

/-- Ingesting a whole sequence of `(now, event)` poll answers; the aiogram
dispatcher catches any exception a handler raises and moves on, so the
database state threads through regardless of `err`. -/
def ingestMany (db : DB) (steps : List (Int × PollAnswerEvent)) : DB :=
  steps.foldl (fun d s => (handle_poll_answer d s.1 s.2).db) db

/-! ### Uniqueness of responses -/

/-- Two response rows agree on the UNIQUE key (chat_id, user_id, question_id). -/
abbrev sameTriple (a b : ResponseRow) : Prop :=
  a.chatId = b.chatId ∧ a.userId = b.userId ∧ a.questionId = b.questionId

/-- No two distinct rows of the responses table share the UNIQUE key. -/
def RespUnique (l : List ResponseRow) : Prop :=
  l.Pairwise (fun a b => ¬ sameTriple a b)

instance (l : List ResponseRow) : Decidable (RespUnique l) :=
  inferInstanceAs (Decidable (l.Pairwise _))

/-- Number of response rows for one (chat, user, question) triple. -/
def tripleCount (l : List ResponseRow) (c u : Int) (q : Nat) : Nat :=
  l.countP (fun r =>
    decide (r.chatId = c) && decide (r.userId = u) && decide (r.questionId = q))

/-! ### Concrete databases used as witnesses -/

/-- A database holding the concrete scenario of spec §8: quiz 1 published
to chat 100 with question 1 (2 options, correct index 0, poll p1) and
question 2 (3 options, correct index 2, poll p2). -/
def exDb : DB where
  quizzes := [⟨1, "Quiz", 9, 0, false⟩]
  questions := [⟨1, 1, "Q1", 0, none⟩, ⟨2, 1, "Q2", 0, none⟩]
  options := [⟨1, 0, "a", true⟩, ⟨1, 1, "b", false⟩,
    ⟨2, 0, "c", false⟩, ⟨2, 1, "d", false⟩, ⟨2, 2, "e", true⟩]
  qAtts := []
  bundles := []
  bAtts := []
  sentPolls := [⟨1, 100, 1, 1, "p1", some 11, none, false⟩,
    ⟨2, 100, 1, 2, "p2", some 12, none, false⟩]
  sentMsgs := []
  responses := []
  participantNames := []
  nextQuizId := 2
  nextQuestionId := 3
  nextBundleId := 1
  nextSentPollId := 3

/-- Events: user 7 answers poll p1 with index 0 (correct), then p2 with
index 1 (incorrect), then sends a duplicate answer to p1. -/
def exSteps : List (Int × PollAnswerEvent) :=
  [(0, ⟨7, "Alice", "p1", [0]⟩), (1, ⟨7, "Alice", "p2", [1]⟩),
   (2, ⟨7, "Alice", "p1", [1]⟩)]

/-- A database where quiz 1 still has an open sent poll for question 42
although every question of the quiz has since been deleted (the question
DELETE does not touch sent_polls). -/
def c3Db : DB where
  quizzes := [⟨1, "Quiz", 9, 0, false⟩]
  questions := []
  options := []
  qAtts := []
  bundles := []
  bAtts := []
  sentPolls := [⟨1, 100, 1, 42, "p1", some 11, none, false⟩]
  sentMsgs := []
  responses := []
  participantNames := []
  nextQuizId := 2
  nextQuestionId := 43
  nextBundleId := 1
  nextSentPollId := 2

/-! ### Expiry watcher (`_close_expired_polls_once`, main.py:1189-1222) -/

/-- Outcome of one `bot.stop_poll` call. -/
inductive CloseResult where
  | success
  | retryAfter (secs : Nat)
  | failure
deriving DecidableEq, Repr

/-- Statement `UPDATE sent_polls SET is_closed=1 WHERE id=?`. -/
def setClosed (db : DB) (rowId : Nat) : DB :=
  { db with sentPolls := db.sentPolls.map (fun sp =>
      if sp.id = rowId then { sp with isClosed := true } else sp) }

/-- Loop body of the watcher tick for one selected row (main.py:1197-1222):
skip unparseable expires_at; skip unless strictly past (`if now <= exp_dt:
continue`); mark closed directly when no message id was recorded
(`int(r["message_id"] or 0)` treats NULL and 0 alike); otherwise call
stop_poll and mark closed only on success — a rate limit just sleeps and
any other failure is swallowed, leaving the row for the next tick.  The
second component accumulates the stop_poll calls issued. -/
def closeRow (closeAction : Int → Nat → CloseResult) (now : Int)
    (st : DB × List (Int × Nat)) (r : SentPollRow) : DB × List (Int × Nat) :=
  match r.expiresAt with
  | some (some t) =>
    if now ≤ t then st
    else if r.messageId.getD 0 = 0 then (setClosed st.1 r.id, st.2)
    else
      match closeAction r.chatId (r.messageId.getD 0) with
      | CloseResult.success => (setClosed st.1 r.id, st.2 ++ [(r.chatId, r.messageId.getD 0)])
      | CloseResult.retryAfter _ => (st.1, st.2 ++ [(r.chatId, r.messageId.getD 0)])
      | CloseResult.failure => (st.1, st.2 ++ [(r.chatId, r.messageId.getD 0)])
  | _ => st

/-- One watcher tick `_close_expired_polls_once` (main.py:1189-1222):
snapshot `SELECT … FROM sent_polls WHERE expires_at IS NOT NULL AND
is_closed=0`, then process each selected row. -/
def close_expired_polls_once (db : DB) (now : Int)
    (closeAction : Int → Nat → CloseResult) : DB × List (Int × Nat) :=
  let rows := db.sentPolls.filter (fun sp => sp.expiresAt.isSome && !sp.isClosed)
  rows.foldl (closeRow closeAction now) (db, [])

/-- Pointwise relation between the sent_polls table before and after a
tick: every row is untouched or has only its is_closed flag set to true. -/
def OnlyCloses (old new : List SentPollRow) : Prop :=
  new.length = old.length ∧ ∀ (i : Nat) (h1 : i < old.length) (h2 : i < new.length),
    new[i] = old[i] ∨ new[i] = { old[i] with isClosed := true }

/-- Every sent_polls row with the given primary key is marked closed. -/
def ClosedAll (db : DB) (rowId : Nat) : Prop :=
  ∀ sp ∈ db.sentPolls, sp.id = rowId → sp.isClosed = true

/-! ### Claim C4 -/

/-- A database with one open poll whose expires_at equals the tick time
exactly. -/
def c4Db : DB where
  quizzes := [⟨1, "Quiz", 9, 0, false⟩]
  questions := [⟨1, 1, "Q1", 0, none⟩]
  options := []
  qAtts := []
  bundles := []
  bAtts := []
  sentPolls := [⟨1, 100, 1, 1, "p1", some 11, some (some 5), false⟩]
  sentMsgs := []
  responses := []
  participantNames := []
  nextQuizId := 2
  nextQuestionId := 2
  nextBundleId := 1
  nextSentPollId := 2

/-- The close action that always succeeds. -/
def alwaysCloseOk : Int → Nat → CloseResult := fun _ _ => CloseResult.success

/-- The single open, strictly expired poll row used in the C4 witness. -/
def c4Row : SentPollRow := ⟨1, 100, 1, 1, "p1", some 11, some (some 4), false⟩

/-- Database for the C4 witness: expires_at strictly before the tick. -/
def c4bDb : DB := { c4Db with sentPolls := [c4Row] }

/-! ### Publisher (`_do_publish_polls`, main.py:1126-1186)

The Telegram transport is modelled by an oracle giving the outcome of the
n-th raw send attempt of the run; `_safe_send` consumes one attempt, or two
when the first is rate-limited.  External poll/message ids returned by a
successful `send_poll` are opaque; the embedding derives them from the
attempt counter, which is fresh within the run. -/

/-- Outcome of one raw send attempt: success, TelegramRetryAfter carrying
the wait, or any other exception. -/
inductive Outcome where
  | ok
  | retryAfter (s : Nat)
  | err
deriving DecidableEq, Repr

/-- Helper `_safe_send` (main.py:1069-1084): try once; on a rate limit
sleep and retry exactly once; any other failure (or a failed retry) gives
None.  Returns the new attempt counter and whether a message came back. -/
def safe_send (oracle : Nat → Outcome) (k : Nat) : Nat × Bool :=
  match oracle k with
  | Outcome.ok => (k + 1, true)
  | Outcome.retryAfter _ =>
    match oracle (k + 1) with
    | Outcome.ok => (k + 2, true)
    | _ => (k + 2, false)
  | Outcome.err => (k + 1, false)

/-- Observable events of a publish run. -/
inductive PubEvent where
  /-- The `اختبار غير صالح أو بلا أسئلة` message (main.py:1131-1132). -/
  | invalidQuiz
  /-- The header announcement (main.py:1134). -/
  | header
  /-- One attachment send attempt (bundle or question media). -/
  | media (kind fileId : String)
  /-- The inline warning for an option count outside 2..10 (main.py:1160). -/
  | optCountWarning (qid n : Nat)
  /-- A successful `send_poll` with the correct_option_id used. -/
  | pollCreated (qid correctId : Nat)
  /-- The inline report after a failed `send_poll` (main.py:1186). -/
  | pollFailed (qid : Nat)
deriving DecidableEq, Repr

/-- State threaded through a publish run: the database, the raw-attempt
counter, the run-scoped set of bundles already emitted, and the events. -/
structure PubState where
  db : DB
  k : Nat
  sentBundles : List Nat
  events : List PubEvent
deriving Repr

/-- Determination of correct_option_id (main.py:1162-1164): the first
option flagged is_correct in stored option_index order; if none is
flagged, index 0. -/
def correct_option_id (opts : List OptionRow) : Nat :=
  match opts.find? (fun o => o.isCorrect) with
  | some o => o.optionIndex
  | none => 0

/-- Sending a list of attachments through `_safe_send`, one event each
(the code ignores the returned message). -/
def sendMediaList (oracle : Nat → Outcome) (items : List (String × String))
    (st : PubState) : PubState :=
  items.foldl (fun st it =>
    { st with k := (safe_send oracle st.k).1,
              events := st.events ++ [PubEvent.media it.1 it.2] }) st

/-- Attachment phase for one question (main.py:1139-1156): the shared
bundle once per run, then the question's own attachments, in position
order. -/
def publishQuestionMedia (oracle : Nat → Outcome) (st : PubState)
    (q : QuestionRow) : PubState :=
  let st1 := match q.mediaBundleId with
    | some b =>
      if st.sentBundles.contains b then st
      else
        let st2 := sendMediaList oracle
          ((get_bundle_atts st.db b).map (fun a => (a.kind, a.fileId))) st
        { st2 with sentBundles := st2.sentBundles ++ [b] }
    | none => st
  sendMediaList oracle
    ((get_question_atts st1.db q.id).map (fun a => (a.kind, a.fileId))) st1

/-- Poll phase for one question (main.py:1157-1186): validate the option
count (warn and skip outside 2..10); determine correct_option_id; call
`bot.send_poll` DIRECTLY — one raw attempt inside a try/except that
catches every exception including TelegramRetryAfter, with no retry — and
on success insert the sent_polls and sent_msgs rows; on failure send the
inline report through `_safe_send`. -/
def publishQuestionPoll (oracle : Nat → Outcome) (chatId : Int) (quizId : Nat)
    (expiresAt : Option Int) (st : PubState) (q : QuestionRow) : PubState :=
  let opts := options_for_question st.db q.id
  if 2 ≤ opts.length ∧ opts.length ≤ 10 then
    let correctId := correct_option_id opts
    match oracle st.k with
    | Outcome.ok =>
      { st with
        db := { st.db with
          sentPolls := st.db.sentPolls ++ [⟨st.db.nextSentPollId, chatId, quizId,
            q.id, toString st.k, some st.k, expiresAt.map some, false⟩],
          sentMsgs := st.db.sentMsgs ++ [⟨chatId, quizId, st.k, expiresAt.map some⟩],
          nextSentPollId := st.db.nextSentPollId + 1 },
        k := st.k + 1,
        events := st.events ++ [PubEvent.pollCreated q.id correctId] }
    | _ =>
      { st with k := (safe_send oracle (st.k + 1)).1,
                events := st.events ++ [PubEvent.pollFailed q.id] }
  else
    { st with k := (safe_send oracle st.k).1,
              events := st.events ++ [PubEvent.optCountWarning q.id opts.length] }

/-- The whole loop body for one question. -/
def publishQuestion (oracle : Nat → Outcome) (chatId : Int) (quizId : Nat)
    (expiresAt : Option Int) (st : PubState) (q : QuestionRow) : PubState :=
  publishQuestionPoll oracle chatId quizId expiresAt
    (publishQuestionMedia oracle st q) q

/-- The publish run `_do_publish_polls` (main.py:1126-1186): look the quiz
up (not archived), load its questions in id order, refuse when either is
missing, send the header, then process every question in order. -/
def do_publish_polls (db : DB) (oracle : Nat → Outcome) (chatId : Int)
    (quizId : Nat) (expiresAt : Option Int) : PubState :=
  match db.quizzes.find? (fun z => decide (z.id = quizId) && !z.isArchived) with
  | none => ⟨db, 0, [], [PubEvent.invalidQuiz]⟩
  | some _ =>
    let qs := questions_for_quiz db quizId
    if qs.isEmpty then ⟨db, 0, [], [PubEvent.invalidQuiz]⟩
    else
      let st1 : PubState := ⟨db, (safe_send oracle 0).1, [], [PubEvent.header]⟩
      qs.foldl (publishQuestion oracle chatId quizId expiresAt) st1

/-- The terminal event a question leaves in the run log:
(question id, whether a poll was created). -/
def qOutcome : PubEvent → Option (Nat × Bool)
  | PubEvent.optCountWarning q _ => some (q, false)
  | PubEvent.pollCreated q _ => some (q, true)
  | PubEvent.pollFailed q => some (q, false)
  | _ => none

/-- The option-count validation of main.py:1159 as a predicate of the
stored options. -/
def validOptCount (db : DB) (qid : Nat) : Bool :=
  decide (2 ≤ (options_for_question db qid).length ∧
    (options_for_question db qid).length ≤ 10)

/-! ### Claim C6 -/

/-- A quiz whose first question has only one option and whose second has a
valid pair of options. -/
def c6Db : DB where
  quizzes := [⟨1, "Quiz", 9, 0, false⟩]
  questions := [⟨1, 1, "Q1", 0, none⟩, ⟨2, 1, "Q2", 0, none⟩]
  options := [⟨1, 0, "a", true⟩, ⟨2, 0, "c", true⟩, ⟨2, 1, "d", false⟩]
  qAtts := []
  bundles := []
  bAtts := []
  sentPolls := []
  sentMsgs := []
  responses := []
  participantNames := []
  nextQuizId := 2
  nextQuestionId := 3
  nextBundleId := 1
  nextSentPollId := 1

/-- A transport that always succeeds. -/
def okOracle : Nat → Outcome := fun _ => Outcome.ok

/-- The quiz used against C5: one question with two valid options. -/
def c5Db : DB where
  quizzes := [⟨1, "Quiz", 9, 0, false⟩]
  questions := [⟨1, 1, "Q1", 0, none⟩]
  options := [⟨1, 0, "a", true⟩, ⟨1, 1, "b", false⟩]
  qAtts := []
  bundles := []
  bAtts := []
  sentPolls := []
  sentMsgs := []
  responses := []
  participantNames := []
  nextQuizId := 2
  nextQuestionId := 2
  nextBundleId := 1
  nextSentPollId := 1

/-- A transport that rate-limits exactly the second raw attempt (the poll
creation, after the header) and succeeds on every other attempt — so a
single retry of the poll creation would succeed. -/
def c5Oracle : Nat → Outcome :=
  fun n => if n = 1 then Outcome.retryAfter 1 else Outcome.ok

/-- The publish state right after the header send of the C5 run. -/
def c5St : PubState := ⟨c5Db, 1, [], [PubEvent.header]⟩

/-- The single question of `c5Db`. -/
def c5Q : QuestionRow := ⟨1, 1, "Q1", 0, none⟩

/-! ### Scoreboard (`cb_scoreboard_show`, main.py:1301-1322) -/

/-- One line of the leaderboard: user, SUM(is_correct), COUNT(*). -/
structure LBEntry where
  userId : Int
  score : Nat
  answered : Nat
deriving DecidableEq, Repr

/-- The `ORDER BY score DESC, answered DESC` relation: `a` may precede `b`
when its score is higher, or scores tie and its answered count is not
smaller (ties in any order). -/
def lbLe (a b : LBEntry) : Prop :=
  b.score < a.score ∨ (b.score = a.score ∧ b.answered ≤ a.answered)

instance : DecidableRel lbLe := fun a b => inferInstanceAs (Decidable (_ ∨ _))

instance : IsTotal LBEntry lbLe := ⟨by intro a b; unfold lbLe; omega⟩

instance : IsTrans LBEntry lbLe := ⟨by intro a b c; unfold lbLe; omega⟩

/-- The scoreboard query of `cb_scoreboard_show` (main.py:1301-1322):
restricted to the quiz's CURRENT question ids (empty → the handler answers
`لا توجد أسئلة` and shows nothing); `GROUP BY user_id` with
SUM(is_correct) and COUNT(*); `ORDER BY score DESC, answered DESC`;
`LIMIT 20`. -/
def cb_scoreboard_show (db : DB) (quizId : Nat) (chatId : Int) : List LBEntry :=
  let qIds := get_quiz_question_ids db quizId
  if qIds.isEmpty then []
  else
    let resp := db.responses.filter (fun r =>
      decide (r.chatId = chatId) && decide (r.questionId ∈ qIds))
    let users := (resp.map (·.userId)).dedup
    let entries := users.map (fun u =>
      let rs := resp.filter (fun r => decide (r.userId = u))
      (⟨u, (rs.filter (fun r => r.isCorrect)).length, rs.length⟩ : LBEntry))
    (entries.insertionSort lbLe).take 20

/-- Predicate picking out a final-score message for one (chat, user). -/
def isFinalScoreFor (c u : Int) : OutMsg → Bool
  | OutMsg.finalScore c2 u2 _ _ _ => decide (c2 = c) && decide (u2 = u)
  | _ => false

/-- Ingesting a sequence of events from a starting state, accumulating the
transport messages the handlers send. -/
def ingestFold (st : DB × List OutMsg) (steps : List (Int × PollAnswerEvent)) :
    DB × List OutMsg :=
  steps.foldl (fun acc s =>
    ((handle_poll_answer acc.1 s.1 s.2).db,
      acc.2 ++ (handle_poll_answer acc.1 s.1 s.2).out)) st

/-- A whole run of the answer ingester: final database and all messages. -/
def ingestManyOuts (db : DB) (steps : List (Int × PollAnswerEvent)) :
    DB × List OutMsg :=
  ingestFold (db, []) steps

/-! ### Merge engine (`merge_quizzes_create_new`, main.py:933-984)

The bundle-remapping dict `bundle_map` is an association list scoped to
the merge call; AUTOINCREMENT primary keys are the `next…Id` counters. -/

/-- Helper `_copy_bundle` (main.py:933-946): return the already-cloned
bundle from the map, or insert a clone of the bundle row and its
attachments for the destination quiz and record it. -/
def copy_bundle (now : Int) (quizDst bundleId : Nat)
    (st : DB × List (Nat × Nat)) : (DB × List (Nat × Nat)) × Nat :=
  match st.2.find? (fun p => decide (p.1 = bundleId)) with
  | some p => (st, p.2)
  | none =>
    let newB := st.1.nextBundleId
    let atts := get_bundle_atts st.1 bundleId
    (({ st.1 with
        bundles := st.1.bundles ++ [⟨newB, quizDst, now⟩],
        bAtts := st.1.bAtts ++ atts.map (fun a => { a with bundleId := newB }),
        nextBundleId := newB + 1 },
      st.2 ++ [(bundleId, newB)]), newB)

/-- Helper `_copy_question_to_quiz` (main.py:948-967): clone the shared
bundle if the question references one (`if qrow["media_bundle_id"]:` —
AUTOINCREMENT ids are ≥ 1, so truthiness is NULL-ness), insert the copied
question, then its options in option_index order and its attachments in
position order. -/
def copy_question_to_quiz (now : Int) (qrow : QuestionRow) (quizDst : Nat)
    (st : DB × List (Nat × Nat)) : DB × List (Nat × Nat) :=
  let br : (DB × List (Nat × Nat)) × Option Nat :=
    match qrow.mediaBundleId with
    | some b => ((copy_bundle now quizDst b st).1, some (copy_bundle now quizDst b st).2)
    | none => (st, none)
  let db := br.1.1
  let newQ := db.nextQuestionId
  let opts := options_for_question db qrow.id
  let atts := get_question_atts db qrow.id
  ({ db with
      questions := db.questions ++ [⟨newQ, quizDst, qrow.text, now, br.2⟩],
      options := db.options ++ opts.map (fun o => { o with questionId := newQ }),
      qAtts := db.qAtts ++ atts.map (fun a => { a with questionId := newQ }),
      nextQuestionId := newQ + 1 }, br.1.2)

/-- The merge `merge_quizzes_create_new` (main.py:969-984): create the new
quiz shell titled from both sources, then copy all questions of the first
source and then of the second, each in ascending id order, threading the
call-scoped bundle map.  (When either quiz row is missing the source
raises on `src["title"]`; that branch returns the store unchanged and id
0 and is unreachable under the existence hypotheses.) -/
def merge_quizzes_create_new (db : DB) (now ownerId : Int)
    (srcId dstId : Nat) : DB × Nat :=
  match db.quizzes.find? (fun z => decide (z.id = srcId)),
      db.quizzes.find? (fun z => decide (z.id = dstId)) with
  | some src, some dst =>
    let title := "دمج: " ++ src.title ++ " + " ++ dst.title
    let newQuizId := db.nextQuizId
    let db0 : DB := { db with
      quizzes := db.quizzes ++ [⟨newQuizId, title, ownerId, now, false⟩],
      nextQuizId := newQuizId + 1 }
    let step := fun (st : DB × List (Nat × Nat)) (qz : Nat) =>
      (questions_for_quiz st.1 qz).foldl
        (fun st2 q => copy_question_to_quiz now q newQuizId st2) st
    (([srcId, dstId].foldl step (db0, [])).1, newQuizId)
  | _, _ => (db, 0)

/-- The column content of an option row a copy must preserve. -/
def optProj (o : OptionRow) : Nat × String × Bool :=
  (o.optionIndex, o.text, o.isCorrect)

/-- The column content of an attachment row a copy must preserve. -/
def attProj (a : AttachmentRow) : String × String × Nat :=
  (a.kind, a.fileId, a.position)

/-- First-occurrence set insertion, the trace the bundle map's keys leave. -/
def foldIns (k l : List Nat) : List Nat :=
  l.foldl (fun k b => if b ∈ k then k else k ++ [b]) k

/-- Referential well-formedness of the store: every row id is below its
table's AUTOINCREMENT counter and every foreign key points below the
referenced counter. -/
abbrev DB.WF (db : DB) : Prop :=
  (∀ z ∈ db.quizzes, z.id < db.nextQuizId) ∧
  (∀ q ∈ db.questions, q.id < db.nextQuestionId ∧ q.quizId < db.nextQuizId) ∧
  (∀ o ∈ db.options, o.questionId < db.nextQuestionId) ∧
  (∀ a ∈ db.qAtts, a.questionId < db.nextQuestionId) ∧
  (∀ b ∈ db.bundles, b.id < db.nextBundleId) ∧
  (∀ a ∈ db.bAtts, a.bundleId < db.nextBundleId)

/-- How the store can change while a merge copies content into the quiz
`nid`: content tables only gain rows, and every new row belongs to the new
id range. -/
structure Grows (nid : Nat) (d1 d2 : DB) : Prop where
  questions : ∃ t, d2.questions = d1.questions ++ t ∧
    ∀ q ∈ t, q.quizId = nid ∧ d1.nextQuestionId ≤ q.id ∧ q.id < d2.nextQuestionId
  options : ∃ t, d2.options = d1.options ++ t ∧
    ∀ o ∈ t, d1.nextQuestionId ≤ o.questionId ∧ o.questionId < d2.nextQuestionId
  qAtts : ∃ t, d2.qAtts = d1.qAtts ++ t ∧
    ∀ a ∈ t, d1.nextQuestionId ≤ a.questionId ∧ a.questionId < d2.nextQuestionId
  bundles : ∃ t, d2.bundles = d1.bundles ++ t ∧ ∀ b ∈ t, d1.nextBundleId ≤ b.id
  bAtts : ∃ t, d2.bAtts = d1.bAtts ++ t ∧ ∀ a ∈ t, d1.nextBundleId ≤ a.bundleId
  nq : d1.nextQuestionId ≤ d2.nextQuestionId
  nb : d1.nextBundleId ≤ d2.nextBundleId
  quizzesEq : d2.quizzes = d1.quizzes

instance : IsTotal QuestionRow leQId := ⟨fun a b => Nat.le_total a.id b.id⟩

instance : IsTrans QuestionRow leQId := ⟨fun _ _ _ h1 h2 => Nat.le_trans h1 h2⟩

instance : IsTotal OptionRow leOptIdx := ⟨fun a b => Nat.le_total a.optionIndex b.optionIndex⟩

instance : IsTrans OptionRow leOptIdx := ⟨fun _ _ _ h1 h2 => Nat.le_trans h1 h2⟩

instance : IsTotal AttachmentRow leAttPos := ⟨fun a b => Nat.le_total a.position b.position⟩

instance : IsTrans AttachmentRow leAttPos := ⟨fun _ _ _ h1 h2 => Nat.le_trans h1 h2⟩

/-- The copy loop of the merge: fold `_copy_question_to_quiz` over a list of
source question rows, threading the store and the bundle map. -/
def copyFold (now : Int) (nid : Nat) (qs : List QuestionRow)
    (st : DB × List (Nat × Nat)) : DB × List (Nat × Nat) :=
  qs.foldl (fun st2 q => copy_question_to_quiz now q nid st2) st

/-- `nq` as read in store `d` is a faithful copy of source question `q` (as
read in store `dbO`) into quiz `nid`: same text, same bundle-reference
presence, and the same option list (index, text, correctness, in option
order) and attachment list (kind, file, position, in position order). -/
abbrev CopiedQ (dbO : DB) (nid : Nat) (d : DB) (q nq : QuestionRow) : Prop :=
  nq.id < d.nextQuestionId ∧ nq.quizId = nid ∧ nq.text = q.text ∧
  (nq.mediaBundleId.isSome ↔ q.mediaBundleId.isSome) ∧
  (options_for_question d nq.id).map optProj
    = (options_for_question dbO q.id).map optProj ∧
  (get_question_atts d nq.id).map attProj
    = (get_question_atts dbO q.id).map attProj

/-- Store for the merge scenario: quiz 1 ("A") has questions 1 and 2 both
referencing the single media bundle 1, quiz 2 ("B") has questions 3, 4, 5
without bundles; question 1 carries two options and one attachment. -/
def c8Db : DB where
  quizzes := [⟨1, "A", 10, 0, false⟩, ⟨2, "B", 10, 0, false⟩]
  questions := [⟨1, 1, "q1", 0, some 1⟩, ⟨2, 1, "q2", 0, some 1⟩,
    ⟨3, 2, "q3", 0, none⟩, ⟨4, 2, "q4", 0, none⟩, ⟨5, 2, "q5", 0, none⟩]
  options := [⟨1, 0, "a", true⟩, ⟨1, 1, "b", false⟩]
  qAtts := [⟨1, "photo", "f", 0⟩]
  bundles := [⟨1, 1, 0⟩]
  bAtts := [⟨1, "photo", "fb", 0⟩]
  sentPolls := []
  sentMsgs := []
  responses := []
  participantNames := []
  nextQuizId := 3
  nextQuestionId := 6
  nextBundleId := 2
  nextSentPollId := 1

theorem tripleCount_le_one {l : List ResponseRow} (h : RespUnique l)
    (c u : Int) (q : Nat) : tripleCount l c u q ≤ 1 := by
  induction l with
  | nil => simp [tripleCount]
  | cons a l ih =>
    rcases List.pairwise_cons.mp h with ⟨ha, hl⟩
    unfold tripleCount at *
    by_cases hm : a.chatId = c ∧ a.userId = u ∧ a.questionId = q
    · rw [List.countP_cons_of_pos]
      · have hzero : l.countP (fun r =>
            decide (r.chatId = c) && decide (r.userId = u) && decide (r.questionId = q)) = 0 := by
          apply List.countP_eq_zero.mpr
          intro b hb
          simp only [Bool.and_eq_true, decide_eq_true_eq]
          rintro ⟨⟨hbc, hbu⟩, hbq⟩
          exact ha b hb ⟨hm.1.trans hbc.symm, hm.2.1.trans hbu.symm, hm.2.2.trans hbq.symm⟩
        omega
      · simp only [Bool.and_eq_true, decide_eq_true_eq]
        exact ⟨⟨hm.1, hm.2.1⟩, hm.2.2⟩
    · rw [List.countP_cons_of_neg]
      · exact ih hl
      · simp only [Bool.and_eq_true, decide_eq_true_eq]
        tauto

theorem respUnique_append {l : List ResponseRow} {r : ResponseRow}
    (h : RespUnique l) (hr : ∀ r0 ∈ l, ¬ sameTriple r0 r) :
    RespUnique (l ++ [r]) := by
  rw [RespUnique, List.pairwise_append]
  exact ⟨h, List.pairwise_singleton _ _, fun a ha b hb => by
    rw [List.mem_singleton] at hb; subst hb; exact hr a ha⟩

/-- The persistence-layer constraint alone keeps the table unique: any
insert into a unique table leaves it unique, whatever the caller did. -/
theorem insertResponse_unique (d : DB) (r : ResponseRow)
    (h : RespUnique d.responses) :
    RespUnique ((insertResponse d r).1.responses) := by
  unfold insertResponse
  split
  · exact h
  · next hany =>
    simp only [List.any_eq_true, Bool.and_eq_true, decide_eq_true_eq, not_exists, not_and] at hany
    push_neg at hany
    exact respUnique_append h (fun r0 h0 hs => by
      rcases hany r0 h0 ⟨hs.1, hs.2.1⟩ with hq
      exact hq hs.2.2)

/-- How an insert that reports the constraint violation ends: the table is
unchanged and a row with the same key was already present. -/
theorem insertResponse_some_eq {d : DB} {r : ResponseRow} {db2 : DB} {e : IngestError}
    (h : insertResponse d r = (db2, some e)) :
    db2 = d ∧ ∃ r0 ∈ d.responses, sameTriple r0 r := by
  unfold insertResponse at h
  split at h
  · next hany =>
    refine ⟨(Prod.mk.injEq .. ▸ h).1.symm, ?_⟩
    simpa [List.any_eq_true, and_assoc] using hany
  · simp at h

/-- How a successful insert ends: the row is appended and no row with the
same key was present. -/
theorem insertResponse_none_eq {d : DB} {r : ResponseRow} {db2 : DB}
    (h : insertResponse d r = (db2, none)) :
    db2 = { d with responses := d.responses ++ [r] } ∧
      ∀ r0 ∈ d.responses, ¬ sameTriple r0 r := by
  unfold insertResponse at h
  split at h
  · simp at h
  · next hany =>
    refine ⟨(Prod.mk.injEq .. ▸ h).1.symm, ?_⟩
    simpa [List.any_eq_true, and_assoc] using hany

theorem finishInsert_stable (db1 : DB) (chatId userId : Int) (name : String)
    (quizId questionId chosen : Nat) (now : Int) (h : RespUnique db1.responses) :
    RespUnique ((finishInsert db1 chatId userId name quizId questionId chosen now).db.responses) ∧
    db1.responses <+:
      (finishInsert db1 chatId userId name quizId questionId chosen now).db.responses ∧
    (finishInsert db1 chatId userId name quizId questionId chosen now).db.questions
      = db1.questions ∧
    (finishInsert db1 chatId userId name quizId questionId chosen now).db.options
      = db1.options ∧
    (finishInsert db1 chatId userId name quizId questionId chosen now).db.sentPolls
      = db1.sentPolls ∧
    (finishInsert db1 chatId userId name quizId questionId chosen now).db.quizzes
      = db1.quizzes := by
  unfold finishInsert
  dsimp only
  split
  · next heq =>
    obtain ⟨h1, -⟩ := insertResponse_some_eq heq
    subst h1
    exact ⟨h, List.prefix_rfl, rfl, rfl, rfl, rfl⟩
  · next heq =>
    obtain ⟨h1, h2⟩ := insertResponse_none_eq heq
    subst h1
    have hu := respUnique_append h h2
    split
    · exact ⟨hu, ⟨_, rfl⟩, rfl, rfl, rfl, rfl⟩
    · split
      · exact ⟨hu, ⟨_, rfl⟩, rfl, rfl, rfl, rfl⟩
      · exact ⟨hu, ⟨_, rfl⟩, rfl, rfl, rfl, rfl⟩

/-- One ingestion never updates or deletes a response and never touches the
content tables or the poll map: the old responses list is a prefix of the
new one, uniqueness is preserved, and questions/options/sent_polls/quizzes
are untouched. -/
theorem handle_poll_answer_stable (db : DB) (now : Int) (pa : PollAnswerEvent)
    (h : RespUnique db.responses) :
    RespUnique ((handle_poll_answer db now pa).db.responses) ∧
    db.responses <+: (handle_poll_answer db now pa).db.responses ∧
    (handle_poll_answer db now pa).db.questions = db.questions ∧
    (handle_poll_answer db now pa).db.options = db.options ∧
    (handle_poll_answer db now pa).db.sentPolls = db.sentPolls ∧
    (handle_poll_answer db now pa).db.quizzes = db.quizzes := by
  unfold handle_poll_answer
  split
  · exact ⟨h, List.prefix_rfl, rfl, rfl, rfl, rfl⟩
  · split
    · exact ⟨h, List.prefix_rfl, rfl, rfl, rfl, rfl⟩
    · next row heq =>
      split
      · exact ⟨h, List.prefix_rfl, rfl, rfl, rfl, rfl⟩
      · dsimp only
        split
        · exact ⟨h, List.prefix_rfl, rfl, rfl, rfl, rfl⟩
        · exact finishInsert_stable (upsertName db row.chatId pa.userId row.quizId
            pa.displayName) row.chatId pa.userId pa.displayName row.quizId
            row.questionId _ now h

theorem ingestMany_stable (db : DB) (steps : List (Int × PollAnswerEvent))
    (h : RespUnique db.responses) :
    RespUnique (ingestMany db steps).responses ∧
    db.responses <+: (ingestMany db steps).responses := by
  induction steps generalizing db with
  | nil => exact ⟨h, List.prefix_rfl⟩
  | cons s steps ih =>
    have hs := handle_poll_answer_stable db s.1 s.2 h
    have hrest := ih (handle_poll_answer db s.1 s.2).db hs.1
    exact ⟨hrest.1, hs.2.1.trans hrest.2⟩

/-- Ingestion that reaches `finishInsert` with no previous response for the
key and a non-empty current question set raises nothing. -/
theorem finishInsert_err_none (db1 : DB) (chatId userId : Int) (name : String)
    (quizId questionId chosen : Nat) (now : Int)
    (hnodup : ∀ r ∈ db1.responses,
      ¬(r.chatId = chatId ∧ r.userId = userId ∧ r.questionId = questionId))
    (hq : get_quiz_question_ids db1 quizId ≠ []) :
    (finishInsert db1 chatId userId name quizId questionId chosen now).err = none := by
  unfold finishInsert
  dsimp only
  split
  · next heq =>
    obtain ⟨-, r0, hr0, hs⟩ := insertResponse_some_eq heq
    exact absurd ⟨hs.1, hs.2.1, hs.2.2⟩ (hnodup r0 hr0)
  · next heq =>
    obtain ⟨hdb2, -⟩ := insertResponse_none_eq heq
    subst hdb2
    split
    · next hempty => exact absurd (List.isEmpty_iff.mp hempty) hq
    · split <;> rfl

/-! ### Claim C1 -/

/-- C1: for every (chat, user, question) triple at most one Response row
ever exists, across any sequence of ingested answer events (republication
adds sent_polls rows only, which the uniqueness key ignores).  First
conjunct: the persistence layer itself enforces it — `insertResponse`, the
embedding of UNIQUE(chat_id, user_id, question_id) from `_ensure_schema`,
keeps any unique table unique whatever the caller does, not only the
handler's read-then-insert check.  Last conjunct: once written, a Response
row is never modified or deleted (the old table is a prefix of the new). -/
theorem C1_response_at_most_once (db : DB) (steps : List (Int × PollAnswerEvent))
    (h : RespUnique db.responses) :
    (∀ d r, RespUnique d.responses → RespUnique ((insertResponse d r).1.responses)) ∧
    (∀ c u q, tripleCount (ingestMany db steps).responses c u q ≤ 1) ∧
    db.responses <+: (ingestMany db steps).responses := by
  have hs := ingestMany_stable db steps h
  exact ⟨fun d r hd => insertResponse_unique d r hd,
    fun c u q => tripleCount_le_one hs.1 c u q, hs.2⟩

/-- Witness for C1 on the concrete §8 scenario, including the duplicate
answer event. -/
theorem C1_response_at_most_once_witness :
    RespUnique exDb.responses ∧
    tripleCount (ingestMany exDb exSteps).responses 100 7 1 ≤ 1 ∧
    exDb.responses <+: (ingestMany exDb exSteps).responses :=
  ⟨by decide, (C1_response_at_most_once exDb exSteps (by decide)).2.1 100 7 1,
    (C1_response_at_most_once exDb exSteps (by decide)).2.2⟩

/-! ### Claim C3 -/

/-- C3 counterexample: ingestion CAN raise to its caller.  In `c3Db` quiz 1
has an empty current question set but poll p1 is still open; the handler
inserts the response and then builds the completion query with
`question_id IN ()`, which SQLite rejects with an OperationalError, raised
out of `handle_poll_answer` (the source has no try/except there;
main.py:1282-1285). -/
theorem C3_counterexample :
    (handle_poll_answer c3Db 0 ⟨7, "Alice", "p1", [0]⟩).err
      = some IngestError.sqlError := by decide

/-- C3 (amended): the ingestion operation raises nothing — every
disqualifying condition is a silent drop — for any input whose resolvable
poll belongs to a quiz with a non-empty current question set.  (As stated
the claim is false at `C3_counterexample`; also note the Response insert is
not guarded by a try/except in the handler — in the sequential embedding
the preceding existence check makes the constraint-violation branch
unreachable, which this proof shows, but the rejection-mapped-to-no-op
behaviour claimed by the spec does not exist in the code.) -/
theorem C3_never_raises_amended (db : DB) (now : Int) (pa : PollAnswerEvent)
    (h : ∀ sp ∈ db.sentPolls, get_quiz_question_ids db sp.quizId ≠ []) :
    (handle_poll_answer db now pa).err = none := by
  unfold handle_poll_answer
  split
  · rfl
  · split
    · rfl
    · next row heq =>
      split
      · rfl
      · dsimp only
        split
        · rfl
        · next hany =>
          apply finishInsert_err_none
          · intro r hr hcontra
            apply hany
            simp only [List.any_eq_true, Bool.and_eq_true, decide_eq_true_eq]
            exact ⟨r, hr, ⟨hcontra.1, hcontra.2.1⟩, hcontra.2.2⟩
          · exact h row (List.mem_of_find?_eq_some heq)

/-- Witness for the amended C3: a normal first answer on the intact §8
database raises nothing. -/
theorem C3_never_raises_amended_witness :
    (∀ sp ∈ exDb.sentPolls, get_quiz_question_ids exDb sp.quizId ≠ []) ∧
    (handle_poll_answer exDb 0 ⟨7, "Alice", "p1", [0]⟩).err = none :=
  ⟨by decide, C3_never_raises_amended exDb 0 ⟨7, "Alice", "p1", [0]⟩ (by decide)⟩

/-! ### Claim C10 -/

/-- C10: an answer event whose selected-option-indices list is empty (a
vote retraction) is dropped before any state change: the handler returns
with the database untouched, no output and no error. -/
theorem C10_empty_selection_dropped (db : DB) (now : Int) (pa : PollAnswerEvent)
    (h : pa.optionIds = []) :
    handle_poll_answer db now pa = ⟨db, [], none⟩ := by
  unfold handle_poll_answer
  rw [h]
  rfl

/-- Witness for C10. -/
theorem C10_empty_selection_dropped_witness :
    (⟨5, "Alice", "p1", []⟩ : PollAnswerEvent).optionIds = [] ∧
    handle_poll_answer exDb 3 ⟨5, "Alice", "p1", []⟩ = ⟨exDb, [], none⟩ :=
  ⟨rfl, C10_empty_selection_dropped exDb 3 ⟨5, "Alice", "p1", []⟩ rfl⟩

theorem onlyCloses_rfl (l : List SentPollRow) : OnlyCloses l l :=
  ⟨rfl, fun _ _ _ => Or.inl rfl⟩

theorem onlyCloses_trans {a b c : List SentPollRow}
    (h1 : OnlyCloses a b) (h2 : OnlyCloses b c) : OnlyCloses a c := by
  refine ⟨h2.1.trans h1.1, fun i ha hc => ?_⟩
  have hb : i < b.length := h1.1 ▸ ha
  rcases h2.2 i hb hc with h | h <;> rcases h1.2 i ha hb with h' | h' <;>
    rw [h, h'] <;> simp

theorem setClosed_onlyCloses (db : DB) (rowId : Nat) :
    OnlyCloses db.sentPolls (setClosed db rowId).sentPolls := by
  refine ⟨by simp [setClosed], fun i h1 h2 => ?_⟩
  simp only [setClosed, List.getElem_map]
  split
  · exact Or.inr rfl
  · exact Or.inl rfl

theorem closeRow_onlyCloses (act : Int → Nat → CloseResult) (now : Int)
    (st : DB × List (Int × Nat)) (r : SentPollRow) :
    OnlyCloses st.1.sentPolls (closeRow act now st r).1.sentPolls := by
  unfold closeRow
  split
  · split
    · exact onlyCloses_rfl _
    · split
      · exact setClosed_onlyCloses _ _
      · split
        · exact setClosed_onlyCloses _ _
        · exact onlyCloses_rfl _
        · exact onlyCloses_rfl _
  · exact onlyCloses_rfl _

theorem foldl_closeRow_onlyCloses (act : Int → Nat → CloseResult) (now : Int)
    (rows : List SentPollRow) (st : DB × List (Int × Nat)) :
    OnlyCloses st.1.sentPolls (rows.foldl (closeRow act now) st).1.sentPolls := by
  induction rows generalizing st with
  | nil => exact onlyCloses_rfl _
  | cons r rows ih =>
    exact onlyCloses_trans (closeRow_onlyCloses act now st r) (ih (closeRow act now st r))

theorem setClosed_closedAll_self (db : DB) (rowId : Nat) :
    ClosedAll (setClosed db rowId) rowId := by
  intro sp hsp hid
  simp only [setClosed, List.mem_map] at hsp
  obtain ⟨a, _, rfl⟩ := hsp
  by_cases h : a.id = rowId
  · simp [h]
  · simp only [if_neg h] at hid ⊢
    exact absurd hid h

theorem setClosed_closedAll_mono (db : DB) (rowId other : Nat)
    (h : ClosedAll db rowId) : ClosedAll (setClosed db other) rowId := by
  intro sp hsp hid
  simp only [setClosed, List.mem_map] at hsp
  obtain ⟨a, ha, rfl⟩ := hsp
  by_cases h2 : a.id = other
  · simp [h2]
  · simp only [if_neg h2] at hid ⊢
    exact h a ha hid

theorem closeRow_closedAll_mono (act : Int → Nat → CloseResult) (now : Int)
    (st : DB × List (Int × Nat)) (r : SentPollRow) (rowId : Nat)
    (h : ClosedAll st.1 rowId) : ClosedAll (closeRow act now st r).1 rowId := by
  unfold closeRow
  split
  · split
    · exact h
    · split
      · exact setClosed_closedAll_mono _ _ _ h
      · split
        · exact setClosed_closedAll_mono _ _ _ h
        · exact h
        · exact h
  · exact h

theorem foldl_closeRow_closedAll_mono (act : Int → Nat → CloseResult) (now : Int)
    (rows : List SentPollRow) (st : DB × List (Int × Nat)) (rowId : Nat)
    (h : ClosedAll st.1 rowId) :
    ClosedAll (rows.foldl (closeRow act now) st).1 rowId := by
  induction rows generalizing st with
  | nil => exact h
  | cons r rows ih => exact ih _ (closeRow_closedAll_mono act now st r rowId h)

/-- Processing an expired open row whose close action succeeds (or which
has no recorded message id) marks that row closed. -/
theorem closeRow_closes (act : Int → Nat → CloseResult) (now : Int)
    (st : DB × List (Int × Nat)) (r : SentPollRow) (t : Int)
    (hexp : r.expiresAt = some (some t)) (ht : t < now)
    (hact : r.messageId.getD 0 = 0 ∨
      act r.chatId (r.messageId.getD 0) = CloseResult.success) :
    ClosedAll (closeRow act now st r).1 r.id := by
  unfold closeRow
  rw [hexp]
  dsimp only
  rw [if_neg (by omega : ¬ now ≤ t)]
  by_cases hm : r.messageId.getD 0 = 0
  · rw [if_pos hm]
    exact setClosed_closedAll_self _ _
  · rw [if_neg hm]
    rcases hact with hact | hact
    · exact absurd hact hm
    · rw [hact]
      exact setClosed_closedAll_self _ _

/-- Calls issued by one loop body come from its own row, and only when the
row's expiry parses strictly before `now` and a message id is recorded. -/
theorem closeRow_calls (act : Int → Nat → CloseResult) (now : Int)
    (st : DB × List (Int × Nat)) (r : SentPollRow) (c : Int) (m : Nat)
    (h : (c, m) ∈ (closeRow act now st r).2) :
    (c, m) ∈ st.2 ∨ ((∃ t, r.expiresAt = some (some t) ∧ t < now) ∧
      c = r.chatId ∧ m = r.messageId.getD 0 ∧ m ≠ 0) := by
  unfold closeRow at h
  split at h
  · next t hexp =>
    split at h
    · exact Or.inl h
    · next hle =>
      split at h
      · exact Or.inl h
      · next hm =>
        split at h <;>
        · rcases List.mem_append.mp h with h | h
          · exact Or.inl h
          · rw [List.mem_singleton] at h
            rcases Prod.mk.injEq .. ▸ h with ⟨hc, hm2⟩
            exact Or.inr ⟨⟨t, hexp, by omega⟩, hc, hm2, hm2 ▸ hm⟩
  · exact Or.inl h

theorem foldl_closeRow_calls (act : Int → Nat → CloseResult) (now : Int)
    (rows : List SentPollRow) (st : DB × List (Int × Nat)) (c : Int) (m : Nat)
    (h : (c, m) ∈ (rows.foldl (closeRow act now) st).2) :
    (c, m) ∈ st.2 ∨ ∃ r ∈ rows, (∃ t, r.expiresAt = some (some t) ∧ t < now) ∧
      c = r.chatId ∧ m = r.messageId.getD 0 ∧ m ≠ 0 := by
  induction rows generalizing st with
  | nil => exact Or.inl h
  | cons r rows ih =>
    rcases ih (closeRow act now st r) h with h2 | h2
    · rcases closeRow_calls act now st r c m h2 with h3 | h3
      · exact Or.inl h3
      · exact Or.inr ⟨r, List.mem_cons_self r rows, h3⟩
    · obtain ⟨r2, hr2, hp⟩ := h2
      exact Or.inr ⟨r2, List.mem_cons_of_mem r hr2, hp⟩

/-- C4 counterexample: the claim says a row with expires_at ≤ now is
processed and closed on the tick when the close action succeeds.  At
`now = 5` the single row of `c4Db` has expires_at = 5 ≤ now, is_closed
false and a message id, and the close action always succeeds — yet the
watcher skips it (`if now <= exp_dt: continue`, main.py:1203) and the row
stays open with no stop_poll call issued. -/
theorem C4_counterexample :
    c4Db.sentPolls.map (fun sp => (sp.expiresAt, sp.isClosed))
      = [(some (some 5), false)] ∧
    (close_expired_polls_once c4Db 5 (fun _ _ => CloseResult.success)).1.sentPolls.map
      (·.isClosed) = [false] ∧
    (close_expired_polls_once c4Db 5 (fun _ _ => CloseResult.success)).2 = [] := by
  refine ⟨rfl, ?_, rfl⟩
  rfl

/-- C4 (amended): on every tick, rows only ever flip is_closed from false
to true (never back, other fields untouched); every open row whose
expires_at parses to a time strictly before now is closed on this tick when
the close action succeeds or no message id was recorded; and every
stop_poll call stems from a row that was open and strictly expired — in
particular an already-closed poll is never selected or re-closed.  (The
claim as stated is false at `C4_counterexample`: the selection is strict,
a row with expires_at = now is left for a later tick.) -/
theorem C4_expiry_tick_amended (db : DB) (now : Int) (act : Int → Nat → CloseResult) :
    OnlyCloses db.sentPolls (close_expired_polls_once db now act).1.sentPolls ∧
    (∀ sp ∈ db.sentPolls, ∀ t : Int, sp.expiresAt = some (some t) →
      sp.isClosed = false → t < now →
      (sp.messageId.getD 0 = 0 ∨ act sp.chatId (sp.messageId.getD 0) = CloseResult.success) →
      ∀ sp2 ∈ (close_expired_polls_once db now act).1.sentPolls,
        sp2.id = sp.id → sp2.isClosed = true) ∧
    (∀ c m, (c, m) ∈ (close_expired_polls_once db now act).2 →
      ∃ sp ∈ db.sentPolls, sp.isClosed = false ∧
        (∃ t, sp.expiresAt = some (some t) ∧ t < now) ∧
        c = sp.chatId ∧ m = sp.messageId.getD 0 ∧ m ≠ 0) := by
  refine ⟨foldl_closeRow_onlyCloses act now _ _, ?_, ?_⟩
  · intro sp hsp t hexp hopen ht hact
    have hmem : sp ∈ db.sentPolls.filter (fun sp => sp.expiresAt.isSome && !sp.isClosed) := by
      rw [List.mem_filter]
      exact ⟨hsp, by simp [hexp, hopen]⟩
    obtain ⟨l1, l2, hsplit⟩ := List.append_of_mem hmem
    intro sp2 hsp2 hid
    unfold close_expired_polls_once at hsp2
    rw [hsplit, List.foldl_append, List.foldl_cons] at hsp2
    have hclosed : ClosedAll (l2.foldl (closeRow act now)
        (closeRow act now (l1.foldl (closeRow act now) (db, [])) sp)).1 sp.id :=
      foldl_closeRow_closedAll_mono act now l2 _ sp.id
        (closeRow_closes act now _ sp t hexp ht hact)
    exact hclosed sp2 hsp2 hid
  · intro c m hmem
    unfold close_expired_polls_once at hmem
    rcases foldl_closeRow_calls act now _ _ c m hmem with h | h
    · simp at h
    · obtain ⟨r, hr, hp⟩ := h
      rw [List.mem_filter] at hr
      refine ⟨r, hr.1, ?_, hp.1, hp.2⟩
      have := hr.2
      simp only [Bool.and_eq_true, Bool.not_eq_true'] at this
      exact this.2

/-- Witness for the amended C4: the strictly expired open row is closed on
the tick when the close action succeeds. -/
theorem C4_expiry_tick_amended_witness :
    c4Row ∈ c4bDb.sentPolls ∧
    (∀ sp2 ∈ (close_expired_polls_once c4bDb 5 alwaysCloseOk).1.sentPolls,
      sp2.id = c4Row.id → sp2.isClosed = true) :=
  ⟨by decide, (C4_expiry_tick_amended c4bDb 5 alwaysCloseOk).2.1 c4Row (by decide)
    4 rfl rfl (by decide) (Or.inr rfl)⟩

theorem options_for_question_congr {d1 d2 : DB} (h : d1.options = d2.options) :
    options_for_question d1 = options_for_question d2 := by
  funext qid
  unfold options_for_question
  rw [h]

theorem sendMediaList_spec (oracle : Nat → Outcome) (items : List (String × String))
    (st : PubState) :
    (sendMediaList oracle items st).db = st.db ∧
    (sendMediaList oracle items st).events.filterMap qOutcome
      = st.events.filterMap qOutcome ∧
    (sendMediaList oracle items st).sentBundles = st.sentBundles := by
  induction items generalizing st with
  | nil => exact ⟨rfl, rfl, rfl⟩
  | cons it items ih =>
    rw [sendMediaList, List.foldl_cons]
    have := ih { st with k := (safe_send oracle st.k).1,
                         events := st.events ++ [PubEvent.media it.1 it.2] }
    rw [sendMediaList] at this
    refine ⟨this.1, ?_, this.2.2⟩
    rw [this.2.1]
    simp [qOutcome]

theorem publishQuestionMedia_spec (oracle : Nat → Outcome) (st : PubState)
    (q : QuestionRow) :
    (publishQuestionMedia oracle st q).db = st.db ∧
    (publishQuestionMedia oracle st q).events.filterMap qOutcome
      = st.events.filterMap qOutcome := by
  unfold publishQuestionMedia
  dsimp only
  split
  · split
    · exact ⟨(sendMediaList_spec oracle _ _).1, (sendMediaList_spec oracle _ _).2.1⟩
    · exact ⟨((sendMediaList_spec oracle _ _).1).trans ((sendMediaList_spec oracle _ _).1),
        ((sendMediaList_spec oracle _ _).2.1).trans ((sendMediaList_spec oracle _ _).2.1)⟩
  · exact ⟨(sendMediaList_spec oracle _ _).1, (sendMediaList_spec oracle _ _).2.1⟩

/-- One loop iteration under an always-succeeding transport: the question
leaves its terminal outcome in the log and a sent_polls row exactly when
its option count is valid. -/
theorem publishQuestion_spec_ok (oracle : Nat → Outcome) (chatId : Int) (quizId : Nat)
    (expiresAt : Option Int) (db0 : DB) (st : PubState) (q : QuestionRow)
    (hok : ∀ n, oracle n = Outcome.ok) (hopt : st.db.options = db0.options) :
    (publishQuestion oracle chatId quizId expiresAt st q).db.options = db0.options ∧
    (publishQuestion oracle chatId quizId expiresAt st q).events.filterMap qOutcome
      = st.events.filterMap qOutcome ++ [(q.id, validOptCount db0 q.id)] ∧
    (publishQuestion oracle chatId quizId expiresAt st q).db.sentPolls.map (·.questionId)
      = st.db.sentPolls.map (·.questionId)
        ++ (if validOptCount db0 q.id then [q.id] else []) := by
  obtain ⟨hmdb, hmev⟩ := publishQuestionMedia_spec oracle st q
  unfold publishQuestion publishQuestionPoll
  dsimp only
  have hoeq : options_for_question (publishQuestionMedia oracle st q).db q.id
      = options_for_question db0 q.id :=
    congrFun (options_for_question_congr ((congrArg DB.options hmdb).trans hopt)) q.id
  rw [hoeq]
  split
  · next hcond =>
    rw [hok]
    refine ⟨(congrArg DB.options hmdb).trans hopt, ?_, ?_⟩
    · rw [List.filterMap_append, hmev]
      simp [qOutcome, validOptCount, hcond]
    · show ((publishQuestionMedia oracle st q).db.sentPolls ++ _).map _ = _
      rw [List.map_append, hmdb]
      simp [validOptCount, hcond]
  · next hcond =>
    refine ⟨(congrArg DB.options hmdb).trans hopt, ?_, ?_⟩
    · rw [List.filterMap_append, hmev]
      simp only [List.filterMap_cons, List.filterMap_nil, qOutcome]
      simp [validOptCount, hcond]
    · rw [hmdb]
      simp [validOptCount, hcond]

theorem foldl_publishQuestion_spec_ok (oracle : Nat → Outcome) (chatId : Int)
    (quizId : Nat) (expiresAt : Option Int) (db0 : DB) (qs : List QuestionRow)
    (st : PubState) (hok : ∀ n, oracle n = Outcome.ok)
    (hopt : st.db.options = db0.options) :
    (qs.foldl (publishQuestion oracle chatId quizId expiresAt) st).db.options
      = db0.options ∧
    (qs.foldl (publishQuestion oracle chatId quizId expiresAt) st).events.filterMap qOutcome
      = st.events.filterMap qOutcome ++ qs.map (fun q => (q.id, validOptCount db0 q.id)) ∧
    (qs.foldl (publishQuestion oracle chatId quizId expiresAt) st).db.sentPolls.map
        (·.questionId)
      = st.db.sentPolls.map (·.questionId)
        ++ (qs.filter (fun q => validOptCount db0 q.id)).map (·.id) := by
  induction qs generalizing st with
  | nil => simpa using hopt
  | cons q qs ih =>
    obtain ⟨h1, h2, h3⟩ :=
      publishQuestion_spec_ok oracle chatId quizId expiresAt db0 st q hok hopt
    obtain ⟨i1, i2, i3⟩ := ih (publishQuestion oracle chatId quizId expiresAt st q) h1
    rw [List.foldl_cons]
    refine ⟨i1, ?_, ?_⟩
    · rw [i2, h2, List.map_cons, List.append_assoc]
      rfl
    · rw [i3, h3, List.filter_cons]
      cases hv : validOptCount db0 q.id <;> simp [hv]

/-- C6: with the transport succeeding, a publish run gives every question
of the quiz exactly one terminal outcome in question order — a warning
without a poll for each question whose option count is outside 2..10, a
created poll for every other — and appends a sent_polls row exactly for
the valid questions, in order.  In particular an invalid question never
aborts the run. -/
theorem C6_invalid_option_count_skipped (db : DB) (oracle : Nat → Outcome)
    (chatId : Int) (quizId : Nat) (expiresAt : Option Int)
    (hok : ∀ n, oracle n = Outcome.ok)
    (hfind : (db.quizzes.find? (fun z => decide (z.id = quizId) && !z.isArchived)).isSome)
    (hne : questions_for_quiz db quizId ≠ []) :
    (do_publish_polls db oracle chatId quizId expiresAt).events.filterMap qOutcome
      = (questions_for_quiz db quizId).map (fun q => (q.id, validOptCount db q.id)) ∧
    (do_publish_polls db oracle chatId quizId expiresAt).db.sentPolls.map (·.questionId)
      = db.sentPolls.map (·.questionId)
        ++ ((questions_for_quiz db quizId).filter
              (fun q => validOptCount db q.id)).map (·.id) := by
  unfold do_publish_polls
  split
  · next hnone => rw [hnone] at hfind; simp at hfind
  · dsimp only
    rw [if_neg (by simpa [List.isEmpty_iff] using hne)]
    obtain ⟨-, h2, h3⟩ := foldl_publishQuestion_spec_ok oracle chatId quizId expiresAt db
      (questions_for_quiz db quizId)
      ⟨db, (safe_send oracle 0).1, [], [PubEvent.header]⟩ hok rfl
    exact ⟨by simpa [qOutcome] using h2, h3⟩

/-- Witness for C6 on `c6Db`: question 1 (1 option) is warned about and
skipped, question 2 gets the poll and the sent_polls row. -/
theorem C6_invalid_option_count_skipped_witness :
    (do_publish_polls c6Db okOracle 100 1 none).events.filterMap qOutcome
      = [(1, false), (2, true)] ∧
    (do_publish_polls c6Db okOracle 100 1 none).db.sentPolls.map (·.questionId)
      = [2] :=
  have h := C6_invalid_option_count_skipped c6Db okOracle 100 1 none
    (fun _ => rfl) (by decide) (by decide)
  ⟨h.1.trans (by decide), h.2.trans (by decide)⟩

/-! ### Claim C5 -/

/-- A question always leaves exactly one terminal outcome whatever the
transport does: the run continues past every failure. -/
theorem publishQuestion_terminal (oracle : Nat → Outcome) (chatId : Int)
    (quizId : Nat) (expiresAt : Option Int) (st : PubState) (q : QuestionRow) :
    ∃ flag : Bool,
      (publishQuestion oracle chatId quizId expiresAt st q).events.filterMap qOutcome
        = st.events.filterMap qOutcome ++ [(q.id, flag)] := by
  obtain ⟨hmdb, hmev⟩ := publishQuestionMedia_spec oracle st q
  unfold publishQuestion publishQuestionPoll
  dsimp only
  split
  · split
    · exact ⟨true, by rw [List.filterMap_append, hmev]; simp [qOutcome]⟩
    · exact ⟨false, by rw [List.filterMap_append, hmev]; simp [qOutcome]⟩
  · exact ⟨false, by rw [List.filterMap_append, hmev]; simp [qOutcome]⟩

theorem foldl_publishQuestion_terminal (oracle : Nat → Outcome) (chatId : Int)
    (quizId : Nat) (expiresAt : Option Int) (qs : List QuestionRow) (st : PubState) :
    ((qs.foldl (publishQuestion oracle chatId quizId expiresAt) st).events.filterMap
        qOutcome).map Prod.fst
      = (st.events.filterMap qOutcome).map Prod.fst ++ qs.map (·.id) := by
  induction qs generalizing st with
  | nil => simp
  | cons q qs ih =>
    obtain ⟨flag, hf⟩ := publishQuestion_terminal oracle chatId quizId expiresAt st q
    rw [List.foldl_cons, ih, hf]
    simp

/-- C5 counterexample: the claim says a rate-limited poll creation is
retried once after waiting, so with `c5Oracle` (retry would succeed) the
poll should be created.  In the code `bot.send_poll` is called directly
(main.py:1169), not through `_safe_send`; the generic `except Exception`
(main.py:1185) swallows the TelegramRetryAfter without any retry, reports
inline and skips the question: no sent_polls row is created even though
the very next attempt would have succeeded. -/
theorem C5_counterexample :
    c5Oracle 1 = Outcome.retryAfter 1 ∧ c5Oracle 2 = Outcome.ok ∧
    (do_publish_polls c5Db c5Oracle 100 1 none).db.sentPolls = [] ∧
    (do_publish_polls c5Db c5Oracle 100 1 none).events
      = [PubEvent.header, PubEvent.pollFailed 1] := by decide

/-- C5 (amended): a rate-limit (or any failure) of the poll-creation call
is NOT retried: the failure is reported inline, the question is skipped
with the database unchanged, and the run continues — every question of the
run still receives exactly one terminal outcome, in order.  (Only sends
going through `_safe_send` — attachments, the header, inline reports —
retry once after a rate limit; see `C5_counterexample` for the claim as
stated.) -/
theorem C5_no_retry_on_poll_creation_amended (db : DB) (oracle : Nat → Outcome)
    (chatId : Int) (quizId : Nat) (expiresAt : Option Int)
    (hfind : (db.quizzes.find? (fun z => decide (z.id = quizId) && !z.isArchived)).isSome)
    (hne : questions_for_quiz db quizId ≠ []) :
    (((do_publish_polls db oracle chatId quizId expiresAt).events.filterMap
        qOutcome).map Prod.fst = (questions_for_quiz db quizId).map (·.id)) ∧
    (∀ (st : PubState) (q : QuestionRow),
      2 ≤ (options_for_question st.db q.id).length →
      (options_for_question st.db q.id).length ≤ 10 →
      oracle st.k ≠ Outcome.ok →
      (publishQuestionPoll oracle chatId quizId expiresAt st q).db = st.db ∧
      (publishQuestionPoll oracle chatId quizId expiresAt st q).events
        = st.events ++ [PubEvent.pollFailed q.id]) := by
  constructor
  · unfold do_publish_polls
    split
    · next hnone => rw [hnone] at hfind; simp at hfind
    · dsimp only
      rw [if_neg (by simpa [List.isEmpty_iff] using hne)]
      rw [foldl_publishQuestion_terminal]
      simp [qOutcome]
  · intro st q h2 h10 hfail
    unfold publishQuestionPoll
    dsimp only
    rw [if_pos ⟨h2, h10⟩]
    cases ho : oracle st.k with
    | ok => exact absurd ho hfail
    | retryAfter s => exact ⟨rfl, rfl⟩
    | err => exact ⟨rfl, rfl⟩

/-- Witness for the amended C5. -/
theorem C5_no_retry_on_poll_creation_amended_witness :
    (((do_publish_polls c5Db c5Oracle 100 1 none).events.filterMap qOutcome).map
      Prod.fst = [1]) ∧
    (publishQuestionPoll c5Oracle 100 1 none c5St c5Q).db = c5St.db ∧
    (publishQuestionPoll c5Oracle 100 1 none c5St c5Q).events
      = c5St.events ++ [PubEvent.pollFailed 1] :=
  have h := C5_no_retry_on_poll_creation_amended c5Db c5Oracle 100 1 none
    (by decide) (by decide)
  ⟨h.1.trans (by decide), (h.2 c5St c5Q (by decide) (by decide) (by decide)).1,
    (h.2 c5St c5Q (by decide) (by decide) (by decide)).2⟩

/-! ### Claim C7 -/

theorem find?_of_filter_eq_singleton {α : Type _} {p : α → Bool} {l : List α} {a : α}
    (h : l.filter p = [a]) : l.find? p = some a := by
  induction l with
  | nil => simp at h
  | cons x l ih =>
    rw [List.filter_cons] at h
    by_cases hp : p x
    · rw [if_pos hp] at h
      rw [List.find?_cons_of_pos _ hp]
      exact congrArg some (List.cons.injEq .. ▸ h).1
    · rw [if_neg hp] at h
      rw [List.find?_cons_of_neg _ hp]
      exact ih h

theorem find?_of_filter_eq_nil {α : Type _} {p : α → Bool} {l : List α}
    (h : l.filter p = []) : l.find? p = none := by
  rw [List.find?_eq_none]
  intro x hx hpx
  have hmem : x ∈ l.filter p := List.mem_filter.mpr ⟨hx, hpx⟩
  rw [h] at hmem
  simp at hmem

/-- C7: the correct_option_id a publish run passes to send_poll for a
question equals the option_index of the option flagged is_correct (when
exactly one option of the question carries the flag), and defaults to
index 0 when no option is flagged. -/
theorem C7_correct_option_id_spec (db : DB) (qid : Nat) :
    (∀ o, (options_for_question db qid).filter (fun x => x.isCorrect) = [o] →
      correct_option_id (options_for_question db qid) = o.optionIndex) ∧
    ((options_for_question db qid).filter (fun x => x.isCorrect) = [] →
      correct_option_id (options_for_question db qid) = 0) := by
  constructor
  · intro o h
    unfold correct_option_id
    rw [find?_of_filter_eq_singleton h]
  · intro h
    unfold correct_option_id
    rw [find?_of_filter_eq_nil h]

/-- Witness for C7: question 1 of `exDb` (unique correct option at index
0), and question 1 of `c4Db` (no options at all, default 0). -/
theorem C7_correct_option_id_spec_witness :
    (options_for_question exDb 1).filter (fun x => x.isCorrect)
      = [⟨1, 0, "a", true⟩] ∧
    correct_option_id (options_for_question exDb 1) = 0 ∧
    (options_for_question c4Db 1).filter (fun x => x.isCorrect) = [] ∧
    correct_option_id (options_for_question c4Db 1) = 0 :=
  ⟨by decide, (C7_correct_option_id_spec exDb 1).1 ⟨1, 0, "a", true⟩ (by decide),
    by decide, (C7_correct_option_id_spec c4Db 1).2 (by decide)⟩

/-- C9: the leaderboard has at most 20 entries, is sorted by score
descending then answered-count descending (ties in any order), and every
entry's score and answered count are computed over exactly that user's
responses to the quiz's CURRENT question set in this chat (responses to
since-deleted questions are excluded), each listed user having at least
one such response. -/
theorem C9_scoreboard_spec (db : DB) (quizId : Nat) (chatId : Int) :
    (cb_scoreboard_show db quizId chatId).length ≤ 20 ∧
    List.Pairwise lbLe (cb_scoreboard_show db quizId chatId) ∧
    (∀ e ∈ cb_scoreboard_show db quizId chatId,
      e.score = ((db.responses.filter (fun r => decide (r.chatId = chatId)
          && decide (r.questionId ∈ get_quiz_question_ids db quizId)
          && decide (r.userId = e.userId))).filter (fun r => r.isCorrect)).length ∧
      e.answered = (db.responses.filter (fun r => decide (r.chatId = chatId)
          && decide (r.questionId ∈ get_quiz_question_ids db quizId)
          && decide (r.userId = e.userId))).length ∧
      0 < e.answered) := by
  unfold cb_scoreboard_show
  dsimp only
  split
  · exact ⟨by simp, List.Pairwise.nil, by simp⟩
  · refine ⟨List.length_take_le .., ?_, ?_⟩
    · exact (List.sorted_insertionSort lbLe _).sublist (List.take_sublist ..)
    · intro e he
      have he2 : e ∈ List.insertionSort lbLe _ := (List.take_sublist ..).subset he
      rw [List.mem_insertionSort] at he2
      obtain ⟨u, hu, rfl⟩ := List.mem_map.mp he2
      rw [List.mem_dedup] at hu
      obtain ⟨r0, hr0, hr0u⟩ := List.mem_map.mp hu
      have hfil : (db.responses.filter (fun r => decide (r.chatId = chatId)
            && decide (r.questionId ∈ get_quiz_question_ids db quizId))).filter
            (fun r => decide (r.userId = u))
          = db.responses.filter (fun r => decide (r.chatId = chatId)
            && decide (r.questionId ∈ get_quiz_question_ids db quizId)
            && decide (r.userId = u)) := by
        rw [List.filter_filter]
        exact List.filter_congr (fun x _ => Bool.and_comm _ _)
      refine ⟨by rw [hfil], by rw [hfil], ?_⟩
      have : r0 ∈ (db.responses.filter (fun r => decide (r.chatId = chatId)
          && decide (r.questionId ∈ get_quiz_question_ids db quizId))).filter
          (fun r => decide (r.userId = u)) :=
        List.mem_filter.mpr ⟨hr0, by simp [hr0u]⟩
      have hne2 := List.ne_nil_of_mem this
      have := List.length_pos.mpr hne2
      simpa using this

/-- Witness for C9 on the §8 scenario after ingesting `exSteps`: user 7
scored 1 of 2. -/
theorem C9_scoreboard_spec_witness :
    cb_scoreboard_show (ingestMany exDb exSteps) 1 100 = [⟨7, 1, 2⟩] ∧
    (cb_scoreboard_show (ingestMany exDb exSteps) 1 100).length ≤ 20 ∧
    List.Pairwise lbLe (cb_scoreboard_show (ingestMany exDb exSteps) 1 100) :=
  ⟨by decide, (C9_scoreboard_spec (ingestMany exDb exSteps) 1 100).1,
    (C9_scoreboard_spec (ingestMany exDb exSteps) 1 100).2.1⟩

/-! ### Completion counting lemmas (for C2) -/

theorem get_quiz_question_ids_congr {d1 d2 : DB} (h : d1.questions = d2.questions) :
    get_quiz_question_ids d1 = get_quiz_question_ids d2 := by
  funext q
  unfold get_quiz_question_ids questions_for_quiz
  rw [h]

theorem get_quiz_question_ids_set_responses (d : DB) (l : List ResponseRow) (q : Nat) :
    get_quiz_question_ids { d with responses := l } q = get_quiz_question_ids d q := rfl

theorem countDistinctAnswered_le (resp : List ResponseRow) (c u : Int)
    (qIds : List Nat) : countDistinctAnswered resp c u qIds ≤ qIds.length := by
  unfold countDistinctAnswered
  rw [← List.card_toFinset]
  refine le_trans (Finset.card_le_card ?_) (List.toFinset_card_le qIds)
  intro x hx
  rw [List.mem_toFinset] at hx ⊢
  obtain ⟨r, hr, rfl⟩ := List.mem_map.mp hx
  have := List.mem_filter.mp hr
  simp only [Bool.and_eq_true, decide_eq_true_eq] at this
  exact this.2.2

theorem countDistinctAnswered_append_new (resp : List ResponseRow) (r : ResponseRow)
    (c u : Int) (qIds : List Nat)
    (hc : r.chatId = c) (hu : r.userId = u) (hq : r.questionId ∈ qIds)
    (hfresh : ∀ r0 ∈ resp, ¬ sameTriple r0 r) :
    countDistinctAnswered (resp ++ [r]) c u qIds
      = countDistinctAnswered resp c u qIds + 1 := by
  unfold countDistinctAnswered
  rw [List.filter_append, List.map_append, ← List.card_toFinset, ← List.card_toFinset]
  have hpass : List.filter (fun r =>
      decide (r.chatId = c) && decide (r.userId = u) && decide (r.questionId ∈ qIds)) [r]
      = [r] := by
    simp [hc, hu, hq]
  rw [hpass]
  rw [show List.map (fun r : ResponseRow => r.questionId) [r] = [r.questionId] from rfl]
  rw [List.toFinset_append]
  rw [show ([r.questionId] : List Nat).toFinset = {r.questionId} from rfl]
  rw [Finset.union_comm, ← Finset.insert_eq]
  rw [Finset.card_insert_of_not_mem]
  intro hmem
  rw [List.mem_toFinset] at hmem
  obtain ⟨r0, hr0, hq0⟩ := List.mem_map.mp hmem
  have h0 := List.mem_filter.mp hr0
  simp only [Bool.and_eq_true, decide_eq_true_eq] at h0
  exact hfresh r0 h0.1 ⟨h0.2.1.1.trans hc.symm, h0.2.1.2.trans hu.symm, hq0⟩

theorem countDistinctAnswered_append_skip (resp : List ResponseRow) (r : ResponseRow)
    (c u : Int) (qIds : List Nat)
    (h : ¬(r.chatId = c ∧ r.userId = u ∧ r.questionId ∈ qIds)) :
    countDistinctAnswered (resp ++ [r]) c u qIds
      = countDistinctAnswered resp c u qIds := by
  unfold countDistinctAnswered
  rw [List.filter_append]
  have hskip : List.filter (fun r =>
      decide (r.chatId = c) && decide (r.userId = u) && decide (r.questionId ∈ qIds)) [r]
      = [] := by
    simp only [List.filter_cons, List.filter_nil, Bool.and_eq_true, decide_eq_true_eq]
    rw [if_neg]
    tauto
  rw [hskip, List.append_nil]

theorem sumCorrect_append_skip (resp : List ResponseRow) (r : ResponseRow)
    (c u : Int) (qIds : List Nat)
    (h : ¬(r.chatId = c ∧ r.userId = u ∧ r.questionId ∈ qIds)) :
    sumCorrect (resp ++ [r]) c u qIds = sumCorrect resp c u qIds := by
  unfold sumCorrect
  rw [List.filter_append]
  have hskip : List.filter (fun r =>
      decide (r.chatId = c) && decide (r.userId = u) && decide (r.questionId ∈ qIds)) [r]
      = [] := by
    simp only [List.filter_cons, List.filter_nil, Bool.and_eq_true, decide_eq_true_eq]
    rw [if_neg]
    tauto
  rw [hskip, List.append_nil]

/-- A full count means every current question of the quiz already carries a
response of this participant. -/
theorem countDistinctAnswered_complete (resp : List ResponseRow) (c u : Int)
    (qIds : List Nat)
    (h : countDistinctAnswered resp c u qIds = qIds.length) :
    ∀ q ∈ qIds, ∃ r0 ∈ resp, r0.chatId = c ∧ r0.userId = u ∧ r0.questionId = q := by
  intro q hq
  unfold countDistinctAnswered at h
  rw [← List.card_toFinset] at h
  have hsub : ((resp.filter (fun r =>
      decide (r.chatId = c) && decide (r.userId = u)
        && decide (r.questionId ∈ qIds))).map (·.questionId)).toFinset
      ⊆ qIds.toFinset := by
    intro x hx
    rw [List.mem_toFinset] at hx ⊢
    obtain ⟨r0, hr0, rfl⟩ := List.mem_map.mp hx
    have := List.mem_filter.mp hr0
    simp only [Bool.and_eq_true, decide_eq_true_eq] at this
    exact this.2.2
  have heq := Finset.eq_of_subset_of_card_le hsub (by rw [h]; exact List.toFinset_card_le qIds)
  have hqmem : q ∈ ((resp.filter (fun r =>
      decide (r.chatId = c) && decide (r.userId = u)
        && decide (r.questionId ∈ qIds))).map (·.questionId)).toFinset := by
    rw [heq, List.mem_toFinset]
    exact hq
  rw [List.mem_toFinset] at hqmem
  obtain ⟨r0, hr0, hq0⟩ := List.mem_map.mp hqmem
  have h0 := List.mem_filter.mp hr0
  simp only [Bool.and_eq_true, decide_eq_true_eq] at h0
  exact ⟨r0, h0.1, h0.2.1.1, h0.2.1.2, hq0⟩

/-- What reaching the insert with a fresh key does: the response row is
appended, and the final-score message goes out exactly when the distinct
count over the quiz's (fixed) current question set reaches its length,
carrying the summed correctness and that length. -/
theorem finishInsert_out (db0 db1 : DB) (chatId userId : Int) (name : String)
    (quizId questionId chosen : Nat) (now : Int) (qz : Nat)
    (hq : db1.questions = db0.questions)
    (hquiz : quizId = qz)
    (hN : get_quiz_question_ids db0 qz ≠ [])
    (hnodup : ∀ r0 ∈ db1.responses,
      ¬(r0.chatId = chatId ∧ r0.userId = userId ∧ r0.questionId = questionId)) :
    (finishInsert db1 chatId userId name quizId questionId chosen now).db.responses
      = db1.responses
        ++ [⟨chatId, userId, questionId, chosen, resolveCorrect db1 questionId chosen, now⟩] ∧
    (if countDistinctAnswered (db1.responses
          ++ [⟨chatId, userId, questionId, chosen, resolveCorrect db1 questionId chosen, now⟩])
          chatId userId (get_quiz_question_ids db0 qz)
        = (get_quiz_question_ids db0 qz).length
     then (finishInsert db1 chatId userId name quizId questionId chosen now).out
        = [OutMsg.celebrate chatId (resolveCorrect db1 questionId chosen),
           OutMsg.finalScore chatId userId name
             (sumCorrect (db1.responses
                ++ [⟨chatId, userId, questionId, chosen,
                      resolveCorrect db1 questionId chosen, now⟩])
               chatId userId (get_quiz_question_ids db0 qz))
             (get_quiz_question_ids db0 qz).length]
     else (finishInsert db1 chatId userId name quizId questionId chosen now).out
        = [OutMsg.celebrate chatId (resolveCorrect db1 questionId chosen)]) := by
  unfold finishInsert
  dsimp only
  split
  · next heq =>
    obtain ⟨-, r0, hr0, hs⟩ := insertResponse_some_eq heq
    exact absurd ⟨hs.1, hs.2.1, hs.2.2⟩ (hnodup r0 hr0)
  · next heq =>
    obtain ⟨hdb2, -⟩ := insertResponse_none_eq heq
    subst hdb2
    dsimp only
    rw [get_quiz_question_ids_set_responses, hquiz,
      congrFun (get_quiz_question_ids_congr hq) qz]
    rw [if_neg (by simpa [List.isEmpty_iff] using hN)]
    refine ⟨by split <;> rfl, ?_⟩
    split
    · rfl
    · rfl

/-- One ingestion step, seen from participant (c, u) of quiz `qz`, when
every sent poll belongs to `qz` and references a current question: either
nothing is appended and no final score for (c, u) goes out, or exactly one
fresh response is appended; when that response is the participant's own,
the final score goes out exactly on reaching the full distinct count and
carries the summed correctness over the current question set; anyone
else's response emits no final score for (c, u). -/
theorem handle_C2_step (db0 db : DB) (now : Int) (pa : PollAnswerEvent)
    (c u : Int) (qz : Nat)
    (hq : db.questions = db0.questions)
    (hsp : db.sentPolls = db0.sentPolls)
    (hpolls : ∀ sp ∈ db0.sentPolls, sp.quizId = qz ∧
      sp.questionId ∈ get_quiz_question_ids db0 qz)
    (hN : get_quiz_question_ids db0 qz ≠ []) :
    ((handle_poll_answer db now pa).db.responses = db.responses ∧
      (handle_poll_answer db now pa).out.countP (isFinalScoreFor c u) = 0) ∨
    (∃ r : ResponseRow,
      (handle_poll_answer db now pa).db.responses = db.responses ++ [r] ∧
      r.questionId ∈ get_quiz_question_ids db0 qz ∧
      (∀ r0 ∈ db.responses, ¬ sameTriple r0 r) ∧
      ((r.chatId = c ∧ r.userId = u ∧
        (handle_poll_answer db now pa).out.countP (isFinalScoreFor c u)
          = (if countDistinctAnswered (db.responses ++ [r]) c u
                (get_quiz_question_ids db0 qz)
              = (get_quiz_question_ids db0 qz).length then 1 else 0) ∧
        (∀ name total outOf,
          OutMsg.finalScore c u name total outOf ∈ (handle_poll_answer db now pa).out →
          total = sumCorrect (db.responses ++ [r]) c u (get_quiz_question_ids db0 qz) ∧
          outOf = (get_quiz_question_ids db0 qz).length)) ∨
       (¬(r.chatId = c ∧ r.userId = u) ∧
        (handle_poll_answer db now pa).out.countP (isFinalScoreFor c u) = 0))) := by
  unfold handle_poll_answer
  split
  · exact Or.inl ⟨rfl, rfl⟩
  · next chosen hch =>
    split
    · exact Or.inl ⟨rfl, rfl⟩
    · next row heq =>
      split
      · exact Or.inl ⟨rfl, rfl⟩
      · dsimp only
        split
        · exact Or.inl ⟨rfl, rfl⟩
        · next hany =>
          have hmem : row ∈ db0.sentPolls := by
            rw [← hsp]
            exact List.mem_of_find?_eq_some heq
          have hrow := hpolls row hmem
          have hnodup : ∀ r0 ∈ (upsertName db row.chatId pa.userId row.quizId
              pa.displayName).responses,
              ¬(r0.chatId = row.chatId ∧ r0.userId = pa.userId
                ∧ r0.questionId = row.questionId) := by
            intro r0 hr0 hcon
            apply hany
            simp only [List.any_eq_true, Bool.and_eq_true, decide_eq_true_eq]
            exact ⟨r0, hr0, ⟨hcon.1, hcon.2.1⟩, hcon.2.2⟩
          obtain ⟨hresp, hout⟩ := finishInsert_out db0
            (upsertName db row.chatId pa.userId row.quizId pa.displayName)
            row.chatId pa.userId pa.displayName row.quizId row.questionId chosen now
            qz hq hrow.1 hN hnodup
          have hup : (upsertName db row.chatId pa.userId row.quizId
              pa.displayName).responses = db.responses := rfl
          rw [hup] at hresp hout
          refine Or.inr ⟨⟨row.chatId, pa.userId, row.questionId, chosen,
            resolveCorrect (upsertName db row.chatId pa.userId row.quizId
              pa.displayName) row.questionId chosen, now⟩, hresp, hrow.2,
            fun r0 h0 hs => hnodup r0 h0 ⟨hs.1, hs.2.1, hs.2.2⟩, ?_⟩
          by_cases hcu : row.chatId = c ∧ pa.userId = u
          · obtain ⟨hc1, hu1⟩ := hcu
            subst hc1
            subst hu1
            refine Or.inl ⟨rfl, rfl, ?_, ?_⟩
            · split at hout
              · next hcnt =>
                rw [hout, if_pos hcnt]
                simp [isFinalScoreFor, List.countP_cons]
              · next hcnt =>
                rw [hout, if_neg hcnt]
                simp [isFinalScoreFor, List.countP_cons]
            · intro name2 total outOf hmem2
              split at hout
              · next hcnt =>
                rw [hout] at hmem2
                rcases List.mem_cons.mp hmem2 with h2 | h2
                · exact absurd h2 (by simp)
                · rw [List.mem_singleton] at h2
                  have h3 := OutMsg.finalScore.injEq .. ▸ h2
                  exact ⟨h3.2.2.2.1, h3.2.2.2.2⟩
              · next hcnt =>
                rw [hout] at hmem2
                rw [List.mem_singleton] at hmem2
                exact absurd hmem2 (by simp)
          · refine Or.inr ⟨fun h2 => hcu ⟨h2.1, h2.2⟩, ?_⟩
            split at hout
            · rw [hout, List.countP_eq_zero]
              intro m hm
              rcases List.mem_cons.mp hm with h2 | h2
              · subst h2
                simp [isFinalScoreFor]
              · rw [List.mem_singleton] at h2
                subst h2
                simp only [isFinalScoreFor, Bool.and_eq_true, decide_eq_true_eq]
                exact hcu
            · rw [hout, List.countP_eq_zero]
              intro m hm
              rw [List.mem_singleton] at hm
              subst hm
              simp [isFinalScoreFor]

/-- Run invariant for C2: the number of final-score messages sent to
participant (c, u) so far is 1 exactly when the participant's distinct
count over the quiz's (fixed) question set is full, and every such message
carries the current summed correctness and the question count. -/
theorem C2_fold_inv (db0 : DB) (c u : Int) (qz : Nat)
    (hpolls : ∀ sp ∈ db0.sentPolls, sp.quizId = qz ∧
      sp.questionId ∈ get_quiz_question_ids db0 qz)
    (hN : get_quiz_question_ids db0 qz ≠ []) :
    ∀ (steps : List (Int × PollAnswerEvent)) (db : DB) (outs : List OutMsg),
      db.questions = db0.questions →
      db.sentPolls = db0.sentPolls →
      RespUnique db.responses →
      outs.countP (isFinalScoreFor c u)
        = (if countDistinctAnswered db.responses c u (get_quiz_question_ids db0 qz)
            = (get_quiz_question_ids db0 qz).length then 1 else 0) →
      (∀ name total outOf, OutMsg.finalScore c u name total outOf ∈ outs →
        total = sumCorrect db.responses c u (get_quiz_question_ids db0 qz) ∧
        outOf = (get_quiz_question_ids db0 qz).length) →
      (ingestFold (db, outs) steps).2.countP (isFinalScoreFor c u)
        = (if countDistinctAnswered (ingestFold (db, outs) steps).1.responses c u
              (get_quiz_question_ids db0 qz)
            = (get_quiz_question_ids db0 qz).length then 1 else 0) ∧
      (∀ name total outOf,
        OutMsg.finalScore c u name total outOf ∈ (ingestFold (db, outs) steps).2 →
        total = sumCorrect (ingestFold (db, outs) steps).1.responses c u
          (get_quiz_question_ids db0 qz) ∧
        outOf = (get_quiz_question_ids db0 qz).length) := by
  intro steps
  induction steps with
  | nil => exact fun db outs _ _ _ hcp hct => ⟨hcp, hct⟩
  | cons s steps ih =>
    intro db outs hq hsp huniq hcp hct
    have hstable := handle_poll_answer_stable db s.1 s.2 huniq
    have hstep := handle_C2_step db0 db s.1 s.2 c u qz hq hsp hpolls hN
    rw [show ingestFold (db, outs) (s :: steps)
      = ingestFold ((handle_poll_answer db s.1 s.2).db,
          outs ++ (handle_poll_answer db s.1 s.2).out) steps from rfl]
    apply ih _ _ (hstable.2.2.1.trans hq) (hstable.2.2.2.2.1.trans hsp) hstable.1
    · rcases hstep with ⟨hrespEq, hzero⟩ | ⟨r, hrespEq, hrq, hfresh, hcase⟩
      · rw [List.countP_append, hzero, Nat.add_zero, hcp, hrespEq]
      · rcases hcase with ⟨hrc, hru, hcnt, -⟩ | ⟨hne, hzero⟩
        · have hlt : ¬(countDistinctAnswered db.responses c u
              (get_quiz_question_ids db0 qz) = (get_quiz_question_ids db0 qz).length) := by
            intro hfull
            obtain ⟨r0, hr0, h0c, h0u, h0q⟩ :=
              countDistinctAnswered_complete db.responses c u _ hfull r.questionId hrq
            exact hfresh r0 hr0 ⟨h0c.trans hrc.symm, h0u.trans hru.symm, h0q⟩
          rw [List.countP_append, hcp, if_neg hlt, Nat.zero_add, hcnt, hrespEq]
        · have hskip : ¬(r.chatId = c ∧ r.userId = u ∧
              r.questionId ∈ get_quiz_question_ids db0 qz) := fun h => hne ⟨h.1, h.2.1⟩
          rw [List.countP_append, hzero, Nat.add_zero, hcp, hrespEq,
            countDistinctAnswered_append_skip db.responses r c u _ hskip]
    · intro name total outOf hm
      rcases List.mem_append.mp hm with hmo | hmr
      · rcases hstep with ⟨hrespEq, hzero⟩ | ⟨r, hrespEq, hrq, hfresh, hcase⟩
        · rw [hrespEq]
          exact hct name total outOf hmo
        · rcases hcase with ⟨hrc, hru, hcnt, -⟩ | ⟨hne, hzero⟩
          · have hlt : ¬(countDistinctAnswered db.responses c u
                (get_quiz_question_ids db0 qz)
                = (get_quiz_question_ids db0 qz).length) := by
              intro hfull
              obtain ⟨r0, hr0, h0c, h0u, h0q⟩ :=
                countDistinctAnswered_complete db.responses c u _ hfull r.questionId hrq
              exact hfresh r0 hr0 ⟨h0c.trans hrc.symm, h0u.trans hru.symm, h0q⟩
            rw [if_neg hlt] at hcp
            have := List.countP_eq_zero.mp hcp _ hmo
            simp [isFinalScoreFor] at this
          · have hskip : ¬(r.chatId = c ∧ r.userId = u ∧
                r.questionId ∈ get_quiz_question_ids db0 qz) := fun h => hne ⟨h.1, h.2.1⟩
            rw [hrespEq, sumCorrect_append_skip db.responses r c u _ hskip]
            exact hct name total outOf hmo
      · rcases hstep with ⟨hrespEq, hzero⟩ | ⟨r, hrespEq, hrq, hfresh, hcase⟩
        · have := List.countP_eq_zero.mp hzero _ hmr
          simp [isFinalScoreFor] at this
        · rcases hcase with ⟨hrc, hru, hcnt, hct2⟩ | ⟨-, hzero⟩
          · rw [hrespEq]
            exact hct2 name total outOf hmr
          · have := List.countP_eq_zero.mp hzero _ hmr
            simp [isFinalScoreFor] at this

/-! ### Claim C2 -/

/-- C2: when every sent poll of the store belongs to quiz `qz` and
references one of its current questions, and participant (c, u) starts
with no answered question and ends the ingested event sequence having
answered all N of them, then exactly one final-score message for (c, u)
is emitted over the whole run, and any such message carries
total = the participant's summed correctness over the question set (so
value total/N) and outOf = N.  Duplicate answers are dropped by the
existence check before the completion check ever runs, so no later event
can repeat the notification. -/
theorem C2_final_score_exactly_once (db : DB)
    (steps : List (Int × PollAnswerEvent)) (c u : Int) (qz : Nat)
    (huniq : RespUnique db.responses)
    (hpolls : ∀ sp ∈ db.sentPolls, sp.quizId = qz ∧
      sp.questionId ∈ get_quiz_question_ids db qz)
    (hN : get_quiz_question_ids db qz ≠ [])
    (hstart : countDistinctAnswered db.responses c u (get_quiz_question_ids db qz) = 0)
    (hfinish : countDistinctAnswered (ingestManyOuts db steps).1.responses c u
        (get_quiz_question_ids db qz) = (get_quiz_question_ids db qz).length) :
    ((ingestManyOuts db steps).2.countP (isFinalScoreFor c u) = 1) ∧
    (∀ name total outOf,
      OutMsg.finalScore c u name total outOf ∈ (ingestManyOuts db steps).2 →
      total = sumCorrect (ingestManyOuts db steps).1.responses c u
        (get_quiz_question_ids db qz) ∧
      outOf = (get_quiz_question_ids db qz).length) := by
  have hNlen : (get_quiz_question_ids db qz).length ≠ 0 := by
    simpa [List.length_eq_zero] using hN
  have h := C2_fold_inv db c u qz hpolls hN steps db [] rfl rfl huniq
    (by rw [hstart, if_neg (by omega)]; rfl)
    (by intro name total outOf hm; simp at hm)
  unfold ingestManyOuts
  refine ⟨?_, h.2⟩
  rw [show ingestFold (db, []) steps = ingestManyOuts db steps from rfl] at h ⊢
  rw [h.1, if_pos hfinish]

/-- Witness for C2 on the §8 concrete scenario: user 7 answers Q1 index 0
(correct) then Q2 index 1 (incorrect) and later sends a duplicate answer
to Q1 — exactly one final score message goes out, reporting 1 of 2. -/
theorem C2_final_score_exactly_once_witness :
    RespUnique exDb.responses ∧
    (∀ sp ∈ exDb.sentPolls, sp.quizId = 1 ∧
      sp.questionId ∈ get_quiz_question_ids exDb 1) ∧
    ((ingestManyOuts exDb exSteps).2.countP (isFinalScoreFor 100 7) = 1) ∧
    sumCorrect (ingestManyOuts exDb exSteps).1.responses 100 7
      (get_quiz_question_ids exDb 1) = 1 ∧
    (get_quiz_question_ids exDb 1).length = 2 :=
  ⟨by decide, by decide,
    (C2_final_score_exactly_once exDb exSteps 100 7 1 (by decide) (by decide)
      (by decide) (by decide) (by decide)).1,
    by decide, by decide⟩

/-! ### Merge lemmas -/

theorem grows_rfl (nid : Nat) (d : DB) : Grows nid d d where
  questions := ⟨[], by simp⟩
  options := ⟨[], by simp⟩
  qAtts := ⟨[], by simp⟩
  bundles := ⟨[], by simp⟩
  bAtts := ⟨[], by simp⟩
  nq := le_refl _
  nb := le_refl _
  quizzesEq := rfl

theorem grows_trans {nid : Nat} {d1 d2 d3 : DB}
    (h1 : Grows nid d1 d2) (h2 : Grows nid d2 d3) : Grows nid d1 d3 where
  questions := by
    obtain ⟨t1, he1, hb1⟩ := h1.questions
    obtain ⟨t2, he2, hb2⟩ := h2.questions
    refine ⟨t1 ++ t2, by rw [he2, he1, List.append_assoc], ?_⟩
    intro q hq
    rcases List.mem_append.mp hq with h | h
    · obtain ⟨ha, hb, hc⟩ := hb1 q h
      exact ⟨ha, hb, lt_of_lt_of_le hc h2.nq⟩
    · obtain ⟨ha, hb, hc⟩ := hb2 q h
      exact ⟨ha, le_trans h1.nq hb, hc⟩
  options := by
    obtain ⟨t1, he1, hb1⟩ := h1.options
    obtain ⟨t2, he2, hb2⟩ := h2.options
    refine ⟨t1 ++ t2, by rw [he2, he1, List.append_assoc], ?_⟩
    intro o ho
    rcases List.mem_append.mp ho with h | h
    · obtain ⟨ha, hb⟩ := hb1 o h
      exact ⟨ha, lt_of_lt_of_le hb h2.nq⟩
    · obtain ⟨ha, hb⟩ := hb2 o h
      exact ⟨le_trans h1.nq ha, hb⟩
  qAtts := by
    obtain ⟨t1, he1, hb1⟩ := h1.qAtts
    obtain ⟨t2, he2, hb2⟩ := h2.qAtts
    refine ⟨t1 ++ t2, by rw [he2, he1, List.append_assoc], ?_⟩
    intro a ha
    rcases List.mem_append.mp ha with h | h
    · obtain ⟨hx, hy⟩ := hb1 a h
      exact ⟨hx, lt_of_lt_of_le hy h2.nq⟩
    · obtain ⟨hx, hy⟩ := hb2 a h
      exact ⟨le_trans h1.nq hx, hy⟩
  bundles := by
    obtain ⟨t1, he1, hb1⟩ := h1.bundles
    obtain ⟨t2, he2, hb2⟩ := h2.bundles
    refine ⟨t1 ++ t2, by rw [he2, he1, List.append_assoc], ?_⟩
    intro b hb
    rcases List.mem_append.mp hb with h | h
    · exact hb1 b h
    · exact le_trans h1.nb (hb2 b h)
  bAtts := by
    obtain ⟨t1, he1, hb1⟩ := h1.bAtts
    obtain ⟨t2, he2, hb2⟩ := h2.bAtts
    refine ⟨t1 ++ t2, by rw [he2, he1, List.append_assoc], ?_⟩
    intro a ha
    rcases List.mem_append.mp ha with h | h
    · exact hb1 a h
    · exact le_trans h1.nb (hb2 a h)
  nq := le_trans h1.nq h2.nq
  nb := le_trans h1.nb h2.nb
  quizzesEq := h2.quizzesEq.trans h1.quizzesEq

/-- Content already in the store before a copy phase is untouched by it:
the options of a pre-existing question read the same afterwards. -/
theorem options_for_question_of_grows {nid : Nat} {d1 d2 : DB}
    (h : Grows nid d1 d2) {i : Nat} (hi : i < d1.nextQuestionId) :
    options_for_question d2 i = options_for_question d1 i := by
  obtain ⟨t, he, hb⟩ := h.options
  unfold options_for_question
  rw [he, List.filter_append]
  rw [show t.filter (fun o => decide (o.questionId = i)) = [] from ?_, List.append_nil]
  rw [List.filter_eq_nil]
  intro o ho
  simp only [decide_eq_true_eq]
  have := (hb o ho).1
  omega

theorem get_question_atts_of_grows {nid : Nat} {d1 d2 : DB}
    (h : Grows nid d1 d2) {i : Nat} (hi : i < d1.nextQuestionId) :
    get_question_atts d2 i = get_question_atts d1 i := by
  obtain ⟨t, he, hb⟩ := h.qAtts
  unfold get_question_atts
  rw [he, List.filter_append]
  rw [show t.filter (fun a => decide (a.questionId = i)) = [] from ?_, List.append_nil]
  rw [List.filter_eq_nil]
  intro a ha
  simp only [decide_eq_true_eq]
  have := (hb a ha).1
  omega

theorem questions_for_quiz_of_grows {nid : Nat} {d1 d2 : DB}
    (h : Grows nid d1 d2) {a : Nat} (ha : a ≠ nid) :
    questions_for_quiz d2 a = questions_for_quiz d1 a := by
  obtain ⟨t, he, hb⟩ := h.questions
  unfold questions_for_quiz
  rw [he, List.filter_append]
  rw [show t.filter (fun q => decide (q.quizId = a)) = [] from ?_, List.append_nil]
  rw [List.filter_eq_nil]
  intro q hq
  simp only [decide_eq_true_eq]
  rw [(hb q hq).1]
  exact fun hcon => ha hcon.symm

theorem foldIns_append (k l1 l2 : List Nat) :
    foldIns k (l1 ++ l2) = foldIns (foldIns k l1) l2 :=
  List.foldl_append ..

theorem foldIns_toFinset (k l : List Nat) :
    (foldIns k l).toFinset = k.toFinset ∪ l.toFinset := by
  induction l generalizing k with
  | nil => simp [foldIns]
  | cons b l ih =>
    show (foldIns (if b ∈ k then k else k ++ [b]) l).toFinset = _
    rw [ih]
    by_cases hb : b ∈ k
    · rw [if_pos hb]
      ext x
      simp only [Finset.mem_union, List.mem_toFinset, List.mem_cons]
      constructor
      · tauto
      · rintro (h | h | h) <;> first | (subst h; exact Or.inl hb) | tauto
    · rw [if_neg hb]
      ext x
      simp only [Finset.mem_union, List.mem_toFinset, List.mem_append,
        List.mem_singleton, List.mem_cons]
      tauto

theorem foldIns_nodup (k l : List Nat) (h : k.Nodup) : (foldIns k l).Nodup := by
  induction l generalizing k with
  | nil => exact h
  | cons b l ih =>
    show (foldIns (if b ∈ k then k else k ++ [b]) l).Nodup
    by_cases hb : b ∈ k
    · rw [if_pos hb]
      exact ih k h
    · rw [if_neg hb]
      refine ih _ ?_
      rw [List.nodup_append]
      exact ⟨h, List.nodup_singleton b, by simpa using hb⟩

theorem foldIns_nil_length (l : List Nat) :
    (foldIns [] l).length = l.dedup.length := by
  have h1 := foldIns_toFinset [] l
  have h2 := foldIns_nodup [] l (List.nodup_nil)
  have h3 : (foldIns [] l).toFinset = l.toFinset := by
    rw [h1]
    simp
  calc (foldIns [] l).length = (foldIns [] l).toFinset.card :=
        (List.toFinset_card_of_nodup h2).symm
    _ = l.toFinset.card := by rw [h3]
    _ = l.dedup.length := List.card_toFinset l

theorem copy_bundle_spec (now : Int) (nid b : Nat) (st : DB × List (Nat × Nat)) :
    (copy_bundle now nid b st).1.1.questions = st.1.questions ∧
    (copy_bundle now nid b st).1.1.options = st.1.options ∧
    (copy_bundle now nid b st).1.1.qAtts = st.1.qAtts ∧
    (copy_bundle now nid b st).1.1.quizzes = st.1.quizzes ∧
    (copy_bundle now nid b st).1.1.nextQuestionId = st.1.nextQuestionId ∧
    Grows nid st.1 (copy_bundle now nid b st).1.1 ∧
    (copy_bundle now nid b st).1.1.bundles.length + st.2.length
      = st.1.bundles.length + (copy_bundle now nid b st).1.2.length ∧
    (copy_bundle now nid b st).1.2.map Prod.fst
      = (if b ∈ st.2.map Prod.fst then st.2.map Prod.fst
         else st.2.map Prod.fst ++ [b]) := by
  unfold copy_bundle
  dsimp only
  split
  · next p hp =>
    have hpb : p.1 = b := by
      have := List.find?_some hp
      simpa using this
    have hpmem : b ∈ st.2.map Prod.fst := by
      rw [← hpb]
      exact List.mem_map_of_mem Prod.fst (List.mem_of_find?_eq_some hp)
    exact ⟨rfl, rfl, rfl, rfl, rfl, grows_rfl nid st.1, rfl, (if_pos hpmem).symm⟩
  · next hn =>
    have hnb : b ∉ st.2.map Prod.fst := by
      intro hmem
      obtain ⟨p, hp, hpb⟩ := List.mem_map.mp hmem
      have := List.find?_eq_none.mp hn p hp
      simp [hpb] at this
    refine ⟨rfl, rfl, rfl, rfl, rfl, ?_, by simp; omega, by rw [if_neg hnb]; simp⟩
    exact {
      questions := ⟨[], by simp⟩
      options := ⟨[], by simp⟩
      qAtts := ⟨[], by simp⟩
      bundles := ⟨[⟨st.1.nextBundleId, nid, now⟩], rfl,
        by intro x hx; rw [List.mem_singleton] at hx; subst hx; exact le_refl _⟩
      bAtts := ⟨(get_bundle_atts st.1 b).map
          (fun a => { a with bundleId := st.1.nextBundleId }), rfl, by
        intro x hx
        obtain ⟨a, -, rfl⟩ := List.mem_map.mp hx
        exact le_refl _⟩
      nq := le_refl _
      nb := Nat.le_succ _
      quizzesEq := rfl }

theorem grows_options_lt {nid : Nat} {dbO d : DB} (hG : Grows nid dbO d)
    (hWFopt : ∀ o ∈ dbO.options, o.questionId < dbO.nextQuestionId) :
    ∀ o ∈ d.options, o.questionId < d.nextQuestionId := by
  obtain ⟨t, he, hb⟩ := hG.options
  rw [he]
  intro o ho
  rcases List.mem_append.mp ho with h | h
  · exact lt_of_lt_of_le (hWFopt o h) hG.nq
  · exact (hb o h).2

theorem grows_qAtts_lt {nid : Nat} {dbO d : DB} (hG : Grows nid dbO d)
    (hWFatt : ∀ a ∈ dbO.qAtts, a.questionId < dbO.nextQuestionId) :
    ∀ a ∈ d.qAtts, a.questionId < d.nextQuestionId := by
  obtain ⟨t, he, hb⟩ := hG.qAtts
  rw [he]
  intro a ha
  rcases List.mem_append.mp ha with h | h
  · exact lt_of_lt_of_le (hWFatt a h) hG.nq
  · exact (hb a h).2

/-- Inserting the copied question row together with the re-keyed copies of
its options and attachments: the new question's stored options and
attachments read back as the source question's (projected to content), and
the store only grows. -/
theorem insert_question_phase (dbO : DB) (nid : Nat) (now : Int)
    (hWFopt : ∀ o ∈ dbO.options, o.questionId < dbO.nextQuestionId)
    (hWFatt : ∀ a ∈ dbO.qAtts, a.questionId < dbO.nextQuestionId)
    (d : DB) (qrow : QuestionRow) (nb : Option Nat)
    (hG : Grows nid dbO d)
    (hqid : qrow.id < dbO.nextQuestionId) :
    (options_for_question ({ d with
        questions := d.questions ++ [⟨d.nextQuestionId, nid, qrow.text, now, nb⟩],
        options := d.options ++ (options_for_question d qrow.id).map
          (fun o => { o with questionId := d.nextQuestionId }),
        qAtts := d.qAtts ++ (get_question_atts d qrow.id).map
          (fun a => { a with questionId := d.nextQuestionId }),
        nextQuestionId := d.nextQuestionId + 1 } : DB) d.nextQuestionId).map optProj
      = (options_for_question dbO qrow.id).map optProj ∧
    (get_question_atts ({ d with
        questions := d.questions ++ [⟨d.nextQuestionId, nid, qrow.text, now, nb⟩],
        options := d.options ++ (options_for_question d qrow.id).map
          (fun o => { o with questionId := d.nextQuestionId }),
        qAtts := d.qAtts ++ (get_question_atts d qrow.id).map
          (fun a => { a with questionId := d.nextQuestionId }),
        nextQuestionId := d.nextQuestionId + 1 } : DB) d.nextQuestionId).map attProj
      = (get_question_atts dbO qrow.id).map attProj ∧
    Grows nid d ({ d with
        questions := d.questions ++ [⟨d.nextQuestionId, nid, qrow.text, now, nb⟩],
        options := d.options ++ (options_for_question d qrow.id).map
          (fun o => { o with questionId := d.nextQuestionId }),
        qAtts := d.qAtts ++ (get_question_atts d qrow.id).map
          (fun a => { a with questionId := d.nextQuestionId }),
        nextQuestionId := d.nextQuestionId + 1 } : DB) := by
  have hosort : List.Sorted leOptIdx (options_for_question d qrow.id) := by
    unfold options_for_question
    exact List.sorted_insertionSort leOptIdx _
  have hasort : List.Sorted leAttPos (get_question_atts d qrow.id) := by
    unfold get_question_atts
    exact List.sorted_insertionSort leAttPos _
  refine ⟨?_, ?_, ?_⟩
  · have hL : options_for_question ({ d with
        questions := d.questions ++ [⟨d.nextQuestionId, nid, qrow.text, now, nb⟩],
        options := d.options ++ (options_for_question d qrow.id).map
          (fun o => { o with questionId := d.nextQuestionId }),
        qAtts := d.qAtts ++ (get_question_atts d qrow.id).map
          (fun a => { a with questionId := d.nextQuestionId }),
        nextQuestionId := d.nextQuestionId + 1 } : DB) d.nextQuestionId
        = List.insertionSort leOptIdx (List.filter
            (fun o => decide (o.questionId = d.nextQuestionId))
            (d.options ++ List.map
              (fun o : OptionRow => { o with questionId := d.nextQuestionId })
              (options_for_question d qrow.id))) := rfl
    rw [hL, List.filter_append]
    rw [show List.filter (fun o => decide (o.questionId = d.nextQuestionId)) d.options = []
      from List.filter_eq_nil.mpr (fun o ho => by
        simp only [decide_eq_true_eq]
        exact Nat.ne_of_lt (grows_options_lt hG hWFopt o ho))]
    rw [show List.filter (fun o : OptionRow => decide (o.questionId = d.nextQuestionId))
          (List.map (fun o : OptionRow => { o with questionId := d.nextQuestionId })
            (options_for_question d qrow.id))
        = List.map (fun o : OptionRow => { o with questionId := d.nextQuestionId })
            (options_for_question d qrow.id)
      from List.filter_eq_self.mpr (fun o ho => by
        obtain ⟨o0, -, rfl⟩ := List.mem_map.mp ho
        simp)]
    rw [List.nil_append]
    rw [List.Sorted.insertionSort_eq (List.Pairwise.map (R := leOptIdx) (S := leOptIdx)
      (fun o : OptionRow => { o with questionId := d.nextQuestionId })
      (fun a b hab => hab) hosort)]
    rw [List.map_map, options_for_question_of_grows hG hqid]
    rfl
  · have hL : get_question_atts ({ d with
        questions := d.questions ++ [⟨d.nextQuestionId, nid, qrow.text, now, nb⟩],
        options := d.options ++ (options_for_question d qrow.id).map
          (fun o => { o with questionId := d.nextQuestionId }),
        qAtts := d.qAtts ++ (get_question_atts d qrow.id).map
          (fun a => { a with questionId := d.nextQuestionId }),
        nextQuestionId := d.nextQuestionId + 1 } : DB) d.nextQuestionId
        = List.insertionSort leAttPos (List.filter
            (fun a => decide (a.questionId = d.nextQuestionId))
            (d.qAtts ++ List.map
              (fun a : AttachmentRow => { a with questionId := d.nextQuestionId })
              (get_question_atts d qrow.id))) := rfl
    rw [hL, List.filter_append]
    rw [show List.filter (fun a => decide (a.questionId = d.nextQuestionId)) d.qAtts = []
      from List.filter_eq_nil.mpr (fun a ha => by
        simp only [decide_eq_true_eq]
        exact Nat.ne_of_lt (grows_qAtts_lt hG hWFatt a ha))]
    rw [show List.filter (fun a : AttachmentRow => decide (a.questionId = d.nextQuestionId))
          (List.map (fun a : AttachmentRow => { a with questionId := d.nextQuestionId })
            (get_question_atts d qrow.id))
        = List.map (fun a : AttachmentRow => { a with questionId := d.nextQuestionId })
            (get_question_atts d qrow.id)
      from List.filter_eq_self.mpr (fun a ha => by
        obtain ⟨a0, -, rfl⟩ := List.mem_map.mp ha
        simp)]
    rw [List.nil_append]
    rw [List.Sorted.insertionSort_eq (List.Pairwise.map (R := leAttPos) (S := leAttPos)
      (fun a : AttachmentRow => { a with questionId := d.nextQuestionId })
      (fun a b hab => hab) hasort)]
    rw [List.map_map, get_question_atts_of_grows hG hqid]
    rfl
  · exact {
      questions := ⟨[⟨d.nextQuestionId, nid, qrow.text, now, nb⟩], rfl, by
        intro q hq
        rw [List.mem_singleton] at hq
        subst hq
        exact ⟨rfl, le_refl _, Nat.lt_succ_self _⟩⟩
      options := ⟨(options_for_question d qrow.id).map
          (fun o => { o with questionId := d.nextQuestionId }), rfl, by
        intro o ho
        obtain ⟨o0, -, rfl⟩ := List.mem_map.mp ho
        exact ⟨le_refl _, Nat.lt_succ_self _⟩⟩
      qAtts := ⟨(get_question_atts d qrow.id).map
          (fun a => { a with questionId := d.nextQuestionId }), rfl, by
        intro a ha
        obtain ⟨a0, -, rfl⟩ := List.mem_map.mp ha
        exact ⟨le_refl _, Nat.lt_succ_self _⟩⟩
      bundles := ⟨[], by simp⟩
      bAtts := ⟨[], by simp⟩
      nq := Nat.le_succ _
      nb := le_refl _
      quizzesEq := rfl }

theorem copy_question_step (dbO : DB) (nid : Nat) (now : Int)
    (hWFopt : ∀ o ∈ dbO.options, o.questionId < dbO.nextQuestionId)
    (hWFatt : ∀ a ∈ dbO.qAtts, a.questionId < dbO.nextQuestionId)
    (st : DB × List (Nat × Nat)) (qrow : QuestionRow)
    (hG : Grows nid dbO st.1)
    (hqid : qrow.id < dbO.nextQuestionId) :
    ∃ newQ : QuestionRow,
      (copy_question_to_quiz now qrow nid st).1.questions
        = st.1.questions ++ [newQ] ∧
      newQ.id = st.1.nextQuestionId ∧
      newQ.quizId = nid ∧
      newQ.text = qrow.text ∧
      (newQ.mediaBundleId.isSome ↔ qrow.mediaBundleId.isSome) ∧
      (options_for_question (copy_question_to_quiz now qrow nid st).1 newQ.id).map optProj
        = (options_for_question dbO qrow.id).map optProj ∧
      (get_question_atts (copy_question_to_quiz now qrow nid st).1 newQ.id).map attProj
        = (get_question_atts dbO qrow.id).map attProj ∧
      Grows nid st.1 (copy_question_to_quiz now qrow nid st).1 ∧
      (copy_question_to_quiz now qrow nid st).1.nextQuestionId
        = st.1.nextQuestionId + 1 ∧
      (copy_question_to_quiz now qrow nid st).1.bundles.length + st.2.length
        = st.1.bundles.length + (copy_question_to_quiz now qrow nid st).2.length ∧
      (copy_question_to_quiz now qrow nid st).2.map Prod.fst
        = foldIns (st.2.map Prod.fst) qrow.mediaBundleId.toList := by
  unfold copy_question_to_quiz
  cases hmb : qrow.mediaBundleId with
  | none =>
    dsimp only
    obtain ⟨hopt, hatt, hGrow⟩ :=
      insert_question_phase dbO nid now hWFopt hWFatt st.1 qrow none hG hqid
    exact ⟨⟨st.1.nextQuestionId, nid, qrow.text, now, none⟩, rfl, rfl, rfl, rfl,
      by simp, hopt, hatt, hGrow, rfl, rfl, rfl⟩
  | some b =>
    dsimp only
    obtain ⟨hq1, hq2, hq3, hq4, hq5, hGb, hcnt, hmap⟩ := copy_bundle_spec now nid b st
    obtain ⟨hopt, hatt, hGrow2⟩ := insert_question_phase dbO nid now hWFopt hWFatt
      (copy_bundle now nid b st).1.1 qrow (some (copy_bundle now nid b st).2)
      (grows_trans hG hGb) hqid
    refine ⟨⟨(copy_bundle now nid b st).1.1.nextQuestionId, nid, qrow.text, now,
      some (copy_bundle now nid b st).2⟩, ?_, hq5, rfl, rfl, by simp, hopt, hatt,
      grows_trans hGb hGrow2, ?_, ?_, ?_⟩
    · show (copy_bundle now nid b st).1.1.questions ++ _ = st.1.questions ++ _
      rw [hq1]
    · show (copy_bundle now nid b st).1.1.nextQuestionId + 1 = st.1.nextQuestionId + 1
      rw [hq5]
    · show (copy_bundle now nid b st).1.1.bundles.length + st.2.length
        = st.1.bundles.length + (copy_bundle now nid b st).1.2.length
      exact hcnt
    · show (copy_bundle now nid b st).1.2.map Prod.fst = foldIns (st.2.map Prod.fst) [b]
      rw [hmap]
      rfl

theorem copiedQ_of_grows {dbO : DB} {nid : Nat} {d1 d2 : DB}
    (hG : Grows nid d1 d2) {q nq : QuestionRow}
    (h : CopiedQ dbO nid d1 q nq) : CopiedQ dbO nid d2 q nq := by
  obtain ⟨hlt, h2, h3, h4, h5, h6⟩ := h
  refine ⟨lt_of_lt_of_le hlt hG.nq, h2, h3, h4, ?_, ?_⟩
  · rw [options_for_question_of_grows hG hlt]
    exact h5
  · rw [get_question_atts_of_grows hG hlt]
    exact h6

/-- Running the copy loop over source questions `qs` appends one faithful
copy per source question, in order, with strictly increasing fresh ids, only
growing the store, and leaves the bundle map recording exactly the
first-occurrence set of the bundle ids the processed questions referenced. -/
theorem copyFold_spec (dbO : DB) (nid : Nat) (now : Int)
    (hWFopt : ∀ o ∈ dbO.options, o.questionId < dbO.nextQuestionId)
    (hWFatt : ∀ a ∈ dbO.qAtts, a.questionId < dbO.nextQuestionId)
    (qs : List QuestionRow) (st : DB × List (Nat × Nat))
    (hG : Grows nid dbO st.1)
    (hqs : ∀ q ∈ qs, q.id < dbO.nextQuestionId) :
    ∃ t : List QuestionRow,
      (copyFold now nid qs st).1.questions = st.1.questions ++ t ∧
      List.Forall₂ (CopiedQ dbO nid (copyFold now nid qs st).1) qs t ∧
      (∀ nq ∈ t, st.1.nextQuestionId ≤ nq.id ∧
        nq.id < (copyFold now nid qs st).1.nextQuestionId ∧ nq.quizId = nid) ∧
      t.Pairwise (fun a b => a.id < b.id) ∧
      Grows nid st.1 (copyFold now nid qs st).1 ∧
      (copyFold now nid qs st).1.bundles.length + st.2.length
        = st.1.bundles.length + (copyFold now nid qs st).2.length ∧
      (copyFold now nid qs st).2.map Prod.fst
        = foldIns (st.2.map Prod.fst)
            (qs.filterMap (fun q => q.mediaBundleId)) := by
  induction qs generalizing st with
  | nil =>
    exact ⟨[], by simp [copyFold], List.Forall₂.nil, by simp, List.Pairwise.nil,
      grows_rfl nid st.1, rfl, by simp [copyFold, foldIns]⟩
  | cons q qs ih =>
    obtain ⟨newQ, hq_app, hq_id, hq_quiz, hq_text, hq_mb, hopt, hatt, hGstep,
        hnqid, hcnt, hkeys⟩ :=
      copy_question_step dbO nid now hWFopt hWFatt st q hG
        (hqs q (List.mem_cons_self q qs))
    obtain ⟨t, ht_app, ht_f2, ht_mem, ht_pw, hG2, hcnt2, hkeys2⟩ :=
      ih (copy_question_to_quiz now q nid st) (grows_trans hG hGstep)
        (fun q2 h2 => hqs q2 (List.mem_cons_of_mem q h2))
    rw [show copyFold now nid (q :: qs) st
        = copyFold now nid qs (copy_question_to_quiz now q nid st) from rfl]
    have hnq_lt1 : newQ.id
        < (copy_question_to_quiz now q nid st).1.nextQuestionId := by
      omega
    have hnq_ltF : newQ.id
        < (copyFold now nid qs (copy_question_to_quiz now q nid st)).1.nextQuestionId :=
      lt_of_lt_of_le hnq_lt1 hG2.nq
    refine ⟨newQ :: t, ?_, ?_, ?_, ?_, grows_trans hGstep hG2, by omega, ?_⟩
    · rw [ht_app, hq_app, List.append_assoc]
      rfl
    · refine List.Forall₂.cons ⟨hnq_ltF, hq_quiz, hq_text, hq_mb, ?_, ?_⟩ ht_f2
      · rw [options_for_question_of_grows hG2 hnq_lt1]
        exact hopt
      · rw [get_question_atts_of_grows hG2 hnq_lt1]
        exact hatt
    · intro nq hnq
      rcases List.mem_cons.mp hnq with h | h
      · subst h
        exact ⟨le_of_eq hq_id.symm, hnq_ltF, hq_quiz⟩
      · obtain ⟨h1, h2, h3⟩ := ht_mem nq h
        exact ⟨by omega, h2, h3⟩
    · refine List.pairwise_cons.mpr ⟨?_, ht_pw⟩
      intro b hb
      have := (ht_mem b hb).1
      omega
    · have hsplit : (q :: qs).filterMap (fun q2 => q2.mediaBundleId)
          = q.mediaBundleId.toList
            ++ qs.filterMap (fun q2 => q2.mediaBundleId) := by
        cases hb : q.mediaBundleId <;> simp [List.filterMap_cons, hb]
      rw [hkeys2, hsplit, foldIns_append, hkeys]

/-- C8: merging two existing quizzes creates one new quiz shell (appended to
the quizzes table with a title built from both sources, leaving every source
quiz row in place), whose question list is a faithful copy of all of the
first source's questions followed by all of the second's, each source read
in ascending id order, with option content/order/correctness and attachment
kind/file/order preserved; the bundles table gains exactly one clone per
distinct bundle referenced by the copied questions, however many questions
share it; and the source quizzes' question lists, options and attachments
read back unchanged. -/
theorem C8_merge_spec (db : DB) (now ownerId : Int) (srcId dstId : Nat)
    (src dst : QuizRow) (db' : DB) (nid : Nat)
    (hWF : DB.WF db)
    (hsrc : db.quizzes.find? (fun z => decide (z.id = srcId)) = some src)
    (hdst : db.quizzes.find? (fun z => decide (z.id = dstId)) = some dst)
    (hM : merge_quizzes_create_new db now ownerId srcId dstId = (db', nid)) :
    nid = db.nextQuizId ∧
    db'.quizzes = db.quizzes
      ++ [⟨nid, "دمج: " ++ src.title ++ " + " ++ dst.title, ownerId, now, false⟩] ∧
    List.Forall₂ (CopiedQ db nid db')
      (questions_for_quiz db srcId ++ questions_for_quiz db dstId)
      (questions_for_quiz db' nid) ∧
    db'.bundles.length = db.bundles.length
      + (((questions_for_quiz db srcId ++ questions_for_quiz db dstId).filterMap
          (fun q => q.mediaBundleId)).dedup).length ∧
    questions_for_quiz db' srcId = questions_for_quiz db srcId ∧
    questions_for_quiz db' dstId = questions_for_quiz db dstId ∧
    ∀ q ∈ questions_for_quiz db srcId ++ questions_for_quiz db dstId,
      options_for_question db' q.id = options_for_question db q.id ∧
      get_question_atts db' q.id = get_question_atts db q.id := by
  unfold merge_quizzes_create_new at hM
  rw [hsrc, hdst] at hM
  dsimp only [List.foldl_cons, List.foldl_nil] at hM
  rw [Prod.mk.injEq] at hM
  obtain ⟨hdb', hnid⟩ := hM
  subst hnid
  set db0 : DB := { db with
    quizzes := db.quizzes
      ++ [⟨db.nextQuizId, "دمج: " ++ src.title ++ " + " ++ dst.title,
            ownerId, now, false⟩],
    nextQuizId := db.nextQuizId + 1 } with hdb0
  have efold : ∀ (qs : List QuestionRow) (st : DB × List (Nat × Nat)),
      List.foldl (fun st2 q => copy_question_to_quiz now q db.nextQuizId st2) st qs
        = copyFold now db.nextQuizId qs st := fun qs st => rfl
  rw [efold, efold] at hdb'
  have hq0 : db0.questions = db.questions := by rw [hdb0]
  have hqz0 : db0.quizzes = db.quizzes
      ++ [⟨db.nextQuizId, "دمج: " ++ src.title ++ " + " ++ dst.title,
            ownerId, now, false⟩] := by rw [hdb0]
  have hsrcid : src.id = srcId := by simpa using List.find?_some hsrc
  have hdstid : dst.id = dstId := by simpa using List.find?_some hdst
  have hsrc_lt : srcId < db.nextQuizId := by
    have := hWF.1 src (List.mem_of_find?_eq_some hsrc)
    omega
  have hdst_lt : dstId < db.nextQuizId := by
    have := hWF.1 dst (List.mem_of_find?_eq_some hdst)
    omega
  have hmem_of : ∀ a : Nat, ∀ q2 ∈ questions_for_quiz db a, q2 ∈ db.questions := by
    intro a q2 hq2
    unfold questions_for_quiz at hq2
    rw [List.mem_insertionSort] at hq2
    exact (List.mem_filter.mp hq2).1
  have hWFopt0 : ∀ o ∈ db0.options, o.questionId < db0.nextQuestionId :=
    fun o ho => hWF.2.2.1 o ho
  have hWFatt0 : ∀ a ∈ db0.qAtts, a.questionId < db0.nextQuestionId :=
    fun a ha => hWF.2.2.2.1 a ha
  have hqsA : ∀ q ∈ questions_for_quiz db0 srcId, q.id < db0.nextQuestionId :=
    fun q hq => (hWF.2.1 q (hmem_of srcId q hq)).1
  have hqsB : ∀ q ∈ questions_for_quiz db0 dstId, q.id < db0.nextQuestionId :=
    fun q hq => (hWF.2.1 q (hmem_of dstId q hq)).1
  obtain ⟨t1, h1app, h1f2, h1mem, h1pw, hG1, h1cnt, h1keys⟩ :=
    copyFold_spec db0 db.nextQuizId now hWFopt0 hWFatt0
      (questions_for_quiz db0 srcId) (db0, []) (grows_rfl db.nextQuizId db0) hqsA
  dsimp only at h1app h1mem h1cnt h1keys hG1
  simp only [List.length_nil, Nat.add_zero, List.map_nil] at h1cnt h1keys
  rw [questions_for_quiz_of_grows hG1 (Nat.ne_of_lt hdst_lt)] at hdb'
  obtain ⟨t2, h2app, h2f2, h2mem, h2pw, hG2, h2cnt, h2keys⟩ :=
    copyFold_spec db0 db.nextQuizId now hWFopt0 hWFatt0
      (questions_for_quiz db0 dstId)
      (copyFold now db.nextQuizId (questions_for_quiz db0 srcId) (db0, []))
      hG1 hqsB
  have hGfull : Grows db.nextQuizId db0
      (copyFold now db.nextQuizId (questions_for_quiz db0 dstId)
        (copyFold now db.nextQuizId (questions_for_quiz db0 srcId) (db0, []))).1 :=
    grows_trans hG1 hG2
  subst hdb'
  have hall : (copyFold now db.nextQuizId (questions_for_quiz db0 dstId)
      (copyFold now db.nextQuizId (questions_for_quiz db0 srcId)
        (db0, []))).1.questions = db.questions ++ (t1 ++ t2) := by
    rw [h2app, h1app, hq0, List.append_assoc]
  have hsorted : List.Sorted leQId (t1 ++ t2) := by
    have hlt : (t1 ++ t2).Pairwise (fun a b => a.id < b.id) :=
      List.pairwise_append.mpr ⟨h1pw, h2pw, fun a ha b hb =>
        lt_of_lt_of_le (h1mem a ha).2.1 (h2mem b hb).1⟩
    exact hlt.imp (fun hab => le_of_lt hab)
  have hf0 : List.filter (fun q : QuestionRow => decide (q.quizId = db.nextQuizId))
      db.questions = [] :=
    List.filter_eq_nil.mpr (fun q hq => by
      simp only [decide_eq_true_eq]
      exact Nat.ne_of_lt (hWF.2.1 q hq).2)
  have hft1 : List.filter (fun q : QuestionRow => decide (q.quizId = db.nextQuizId))
      t1 = t1 :=
    List.filter_eq_self.mpr (fun q hq => by
      simp only [decide_eq_true_eq]
      exact (h1mem q hq).2.2)
  have hft2 : List.filter (fun q : QuestionRow => decide (q.quizId = db.nextQuizId))
      t2 = t2 :=
    List.filter_eq_self.mpr (fun q hq => by
      simp only [decide_eq_true_eq]
      exact (h2mem q hq).2.2)
  have hqnew : questions_for_quiz
      (copyFold now db.nextQuizId (questions_for_quiz db0 dstId)
        (copyFold now db.nextQuizId (questions_for_quiz db0 srcId)
          (db0, []))).1 db.nextQuizId = t1 ++ t2 := by
    have hqq : ∀ (d : DB) (a : Nat), questions_for_quiz d a
        = List.insertionSort leQId
            (List.filter (fun q : QuestionRow => decide (q.quizId = a))
              d.questions) := fun d a => rfl
    rw [hqq, hall, List.filter_append, List.filter_append, hf0, hft1, hft2,
      List.nil_append]
    exact List.Sorted.insertionSort_eq hsorted
  refine ⟨rfl, ?_, ?_, ?_, ?_, ?_, ?_⟩
  · rw [hGfull.quizzesEq, hqz0]
  · rw [hqnew]
    exact List.rel_append
      (List.Forall₂.imp (fun a b hab => copiedQ_of_grows hG2 hab) h1f2) h2f2
  · have hkeys12 : (copyFold now db.nextQuizId (questions_for_quiz db0 dstId)
        (copyFold now db.nextQuizId (questions_for_quiz db0 srcId)
          (db0, []))).2.map Prod.fst
        = foldIns [] (((questions_for_quiz db0 srcId)
            ++ (questions_for_quiz db0 dstId)).filterMap
              (fun q => q.mediaBundleId)) := by
      rw [h2keys, h1keys, List.filterMap_append, foldIns_append]
    have hlen : (copyFold now db.nextQuizId (questions_for_quiz db0 dstId)
        (copyFold now db.nextQuizId (questions_for_quiz db0 srcId)
          (db0, []))).2.length
        = (((questions_for_quiz db0 srcId)
            ++ (questions_for_quiz db0 dstId)).filterMap
              (fun q => q.mediaBundleId)).dedup.length := by
      calc (copyFold now db.nextQuizId (questions_for_quiz db0 dstId)
            (copyFold now db.nextQuizId (questions_for_quiz db0 srcId)
              (db0, []))).2.length
          = ((copyFold now db.nextQuizId (questions_for_quiz db0 dstId)
            (copyFold now db.nextQuizId (questions_for_quiz db0 srcId)
              (db0, []))).2.map Prod.fst).length := (List.length_map _ _).symm
        _ = _ := by rw [hkeys12, foldIns_nil_length]
    have hb0 : db0.bundles.length = db.bundles.length := by rw [hdb0]
    have h4 : (copyFold now db.nextQuizId (questions_for_quiz db0 dstId)
        (copyFold now db.nextQuizId (questions_for_quiz db0 srcId)
          (db0, []))).1.bundles.length
        = db.bundles.length + (((questions_for_quiz db0 srcId)
            ++ (questions_for_quiz db0 dstId)).filterMap
              (fun q => q.mediaBundleId)).dedup.length := by
      omega
    exact h4
  · exact questions_for_quiz_of_grows hGfull (Nat.ne_of_lt hsrc_lt)
  · exact questions_for_quiz_of_grows hGfull (Nat.ne_of_lt hdst_lt)
  · intro q hq
    have hmemdb : q ∈ db.questions := by
      rcases List.mem_append.mp hq with h | h
      · exact hmem_of srcId q h
      · exact hmem_of dstId q h
    have hqlt : q.id < db.nextQuestionId := (hWF.2.1 q hmemdb).1
    exact ⟨options_for_question_of_grows hGfull hqlt,
      get_question_atts_of_grows hGfull hqlt⟩

theorem C8_merge_spec_witness :
    DB.WF c8Db ∧
    c8Db.quizzes.find? (fun z => decide (z.id = 1))
      = some ⟨1, "A", 10, 0, false⟩ ∧
    c8Db.quizzes.find? (fun z => decide (z.id = 2))
      = some ⟨2, "B", 10, 0, false⟩ ∧
    (merge_quizzes_create_new c8Db 5 10 1 2).2 = 3 ∧
    (merge_quizzes_create_new c8Db 5 10 1 2).1.bundles.length = 2 ∧
    (questions_for_quiz (merge_quizzes_create_new c8Db 5 10 1 2).1 3).length
      = 5 := by
  have h := C8_merge_spec c8Db 5 10 1 2 ⟨1, "A", 10, 0, false⟩
    ⟨2, "B", 10, 0, false⟩
    (merge_quizzes_create_new c8Db 5 10 1 2).1
    (merge_quizzes_create_new c8Db 5 10 1 2).2
    (by decide) (by decide) (by decide) rfl
  have h3 : (merge_quizzes_create_new c8Db 5 10 1 2).2 = 3 :=
    h.1.trans (by decide)
  refine ⟨by decide, by decide, by decide, h3, ?_, ?_⟩
  · rw [h.2.2.2.1]
    decide
  · have hlen := (h.2.2.1).length_eq
    rw [← h3, ← hlen]
    decide

end QuizBot
